import Mathlib

set_option linter.unusedSectionVars false

/-!
Verification development for the guess-testing repository.

The Python code (guess.py, tracing.py, typing_generators_factory.py and the
generators package) is shallowly embedded.  Python dictionaries that map file
names to sets of line numbers (`Dict[str, Set[int]]`) are modelled as
association lists `List (α × Finset β)` in insertion order; the Python dict
invariant (distinct keys) is carried as a `Nodup` hypothesis where a result
depends on it.  Python sets of lines are `Finset`s.
-/

namespace GuessTesting

/-- A "lines" structure: Python `Dict[Any, Set[Any]]` in insertion order. -/
abbrev Lines (α β : Type) : Type := List (α × Finset β)

variable {α β : Type} [DecidableEq α] [DecidableEq β]

/-- Python `d[k]` lookup on the association list: first entry with key `k`. -/
def lines_find (k : α) : Lines α β → Option (Finset β)
  | [] => none
  | p :: rest => if p.1 = k then some p.2 else lines_find k rest

/-- The key list (`d.keys()` in insertion order). -/
def lines_keys (l : Lines α β) : List α := l.map Prod.fst

/-- `Guesser.reduce_lines` (guess.py lines 62-75): for every key present in
both structures, subtract `reduce_by`'s set from `to_reduce`'s set, popping
the key when its set becomes empty.  Keys absent from `reduce_by` are kept
untouched. -/
def reduce_lines (to_reduce reduce_by : Lines α β) : Lines α β :=
  to_reduce.filterMap fun p =>
    match lines_find p.1 reduce_by with
    | none => some p
    | some s => if p.2 \ s = ∅ then none else some (p.1, p.2 \ s)

/-- `Guesser.equalize_lines` (guess.py lines 77-93): keep only the values of
`to_equalize` that also exist in `equalize_by`, popping keys that are absent
from `equalize_by` or whose intersection becomes empty. -/
def equalize_lines (to_equalize equalize_by : Lines α β) : Lines α β :=
  to_equalize.filterMap fun p =>
    match lines_find p.1 equalize_by with
    | none => none
    | some s => if p.2 ∩ s = ∅ then none else some (p.1, p.2 ∩ s)

/-- `Guesser.lines_length` (guess.py lines 95-106): total number of recorded
locations, `sum(len(line) for line in lines.values())`. -/
def lines_length (lines : Lines α β) : Nat := (lines.map fun p => p.2.card).sum

/-- Membership of location `(k, b)` in a lines structure: some entry for key
`k` contains `b` (for a Python dict — distinct keys — this is
`k in lines and b in lines[k]`). -/
def mem_lines (k : α) (b : β) (l : Lines α β) : Prop :=
  ∃ p ∈ l, p.1 = k ∧ b ∈ p.2

instance (k : α) (b : β) (l : Lines α β) : Decidable (mem_lines k b l) :=
  List.decidableBEx _ l

theorem lines_find_eq_none_iff {k : α} {l : Lines α β} :
    lines_find k l = none ↔ k ∉ lines_keys l := by
  induction l with
  | nil => simp [lines_find, lines_keys]
  | cons p rest ih =>
    by_cases h : p.1 = k
    · simp [lines_find, lines_keys, h]
    · simp only [lines_find, if_neg h, lines_keys, List.map_cons, List.mem_cons, ih]
      constructor
      · intro hk hmem
        rcases hmem with h1 | h2
        · exact h h1.symm
        · exact hk h2
      · intro hk h2
        exact hk (Or.inr h2)

theorem lines_find_mem {k : α} {s : Finset β} {l : Lines α β}
    (h : lines_find k l = some s) : (k, s) ∈ l := by
  induction l with
  | nil => exact absurd h (by simp [lines_find])
  | cons p rest ih =>
    by_cases hp : p.1 = k
    · simp only [lines_find, hp, if_pos rfl] at h
      cases h
      have hpk : (k, p.2) = p := by rw [← hp]
      rw [hpk]
      exact List.mem_cons_self p rest
    · simp only [lines_find, if_neg hp] at h
      exact List.mem_cons_of_mem _ (ih h)

theorem not_mem_lines_nil (k : α) (b : β) : ¬ mem_lines k b ([] : Lines α β) := by
  rintro ⟨s, hs, -⟩
  simp [lines_find] at hs

/-- Every kept entry of `reduce_lines` keeps its key, so the key list of the
result is a sublist of the original key list. -/
theorem lines_keys_reduce_sublist (A B : Lines α β) :
    List.Sublist (lines_keys (reduce_lines A B)) (lines_keys A) := by
  induction A with
  | nil => simp [reduce_lines, lines_keys]
  | cons p rest ih =>
    show List.Sublist (lines_keys (List.filterMap _ (p :: rest))) _
    rw [List.filterMap_cons]
    cases hf : lines_find p.1 B with
    | none => exact ih.cons₂ p.1
    | some s =>
      by_cases he : p.2 \ s = ∅
      · simp only [if_pos he]
        exact ih.cons p.1
      · simp only [if_neg he]
        exact ih.cons₂ p.1

theorem lines_keys_equalize_sublist (A B : Lines α β) :
    List.Sublist (lines_keys (equalize_lines A B)) (lines_keys A) := by
  induction A with
  | nil => simp [equalize_lines, lines_keys]
  | cons p rest ih =>
    show List.Sublist (lines_keys (List.filterMap _ (p :: rest))) _
    rw [List.filterMap_cons]
    cases hf : lines_find p.1 B with
    | none => exact ih.cons p.1
    | some s =>
      by_cases he : p.2 ∩ s = ∅
      · simp only [if_pos he]
        exact ih.cons p.1
      · simp only [if_neg he]
        exact ih.cons₂ p.1

theorem lines_find_of_not_mem_keys {k : α} {l : Lines α β}
    (h : k ∉ lines_keys l) : lines_find k l = none :=
  lines_find_eq_none_iff.mpr h

theorem key_mem_keys_of_mem {p : α × Finset β} {l : Lines α β} (h : p ∈ l) :
    p.1 ∈ lines_keys l := List.mem_map_of_mem Prod.fst h

/-- With distinct keys, the entry found for `k` is the only entry with key `k`. -/
theorem lines_find_of_mem_nodup {k : α} {t : Finset β} {l : Lines α β}
    (hl : (lines_keys l).Nodup) (h : (k, t) ∈ l) : lines_find k l = some t := by
  induction l with
  | nil => cases h
  | cons q rest ih =>
    simp only [lines_keys, List.map_cons, List.nodup_cons] at hl
    rcases List.mem_cons.mp h with h1 | h2
    · rw [← h1]
      simp [lines_find]
    · have hk : k ∈ lines_keys rest := key_mem_keys_of_mem h2
      have hne : q.1 ≠ k := by
        intro he
        exact hl.1 (he ▸ hk)
      simp only [lines_find, if_neg hne]
      exact ih hl.2 h2

theorem lines_find_head (q : α × Finset β) (tl : Lines α β) :
    lines_find q.1 (q :: tl) = some q.2 := by
  simp [lines_find]

/-- The first-occurrence decomposition behind a successful lookup. -/
theorem lines_find_decomp {k : α} {S : Finset β} {l : Lines α β}
    (h : lines_find k l = some S) :
    ∃ pre post, l = pre ++ (k, S) :: post ∧ k ∉ lines_keys pre := by
  induction l with
  | nil => exact absurd h (by simp [lines_find])
  | cons q rest ih =>
    by_cases hq : q.1 = k
    · simp only [lines_find, if_pos hq] at h
      cases h
      refine ⟨[], rest, ?_, by simp [lines_keys]⟩
      have : (k, q.2) = q := by rw [← hq]
      rw [this]
      simp
    · simp only [lines_find, if_neg hq] at h
      obtain ⟨pre, post, hl, hpre⟩ := ih h
      refine ⟨q :: pre, post, by rw [hl]; simp, ?_⟩
      simp only [lines_keys, List.map_cons, List.mem_cons]
      rintro (h1 | h2)
      · exact hq h1.symm
      · exact hpre h2

theorem mem_lines_of_find {k : α} {t : Finset β} {b : β} {l : Lines α β}
    (h : lines_find k l = some t) (hb : b ∈ t) : mem_lines k b l :=
  ⟨(k, t), lines_find_mem h, rfl, hb⟩

theorem find_isSome_of_mem_lines {k : α} {b : β} {l : Lines α β}
    (h : mem_lines k b l) : ∃ t, lines_find k l = some t := by
  obtain ⟨p, hp, hk, -⟩ := h
  cases hf : lines_find k l with
  | some t => exact ⟨t, rfl⟩
  | none =>
    have := lines_find_eq_none_iff.mp hf
    exact absurd (hk ▸ key_mem_keys_of_mem hp) this

/-- `reduce_lines` only removes locations: characterization of membership.
The dict invariant is needed only for `reduce_by`. -/
theorem mem_reduce_iff {A B : Lines α β} {k : α} {b : β}
    (hB : (lines_keys B).Nodup) :
    mem_lines k b (reduce_lines A B) ↔ mem_lines k b A ∧ ¬ mem_lines k b B := by
  constructor
  · rintro ⟨q, hq, hk, hb⟩
    obtain ⟨p, hpA, hfp⟩ := List.mem_filterMap.mp hq
    cases hf : lines_find p.1 B with
    | none =>
      rw [hf] at hfp
      cases hfp
      refine ⟨⟨q, hpA, hk, hb⟩, fun hmB => ?_⟩
      obtain ⟨t, ht⟩ := find_isSome_of_mem_lines hmB
      rw [← hk, hf] at ht
      exact Option.noConfusion ht
    | some t =>
      rw [hf] at hfp
      dsimp only at hfp
      by_cases he : p.2 \ t = ∅
      · rw [if_pos he] at hfp
        exact absurd hfp (by simp)
      · rw [if_neg he] at hfp
        cases hfp
        simp only [Finset.mem_sdiff] at hb
        refine ⟨⟨p, hpA, hk, hb.1⟩, fun hmB => ?_⟩
        obtain ⟨r, hrB, hrk, hbr⟩ := hmB
        have hr : (k, r.2) ∈ B := by
          have : (k, r.2) = r := by rw [← hrk]
          rw [this]; exact hrB
        have := lines_find_of_mem_nodup hB hr
        rw [← hk, hf] at this
        cases this
        exact hb.2 hbr
  · rintro ⟨⟨p, hpA, hk, hb⟩, hnB⟩
    cases hf : lines_find p.1 B with
    | none =>
      refine ⟨p, List.mem_filterMap.mpr ⟨p, hpA, ?_⟩, hk, hb⟩
      show (match lines_find p.1 B with
        | none => some p
        | some s => if p.2 \ s = ∅ then none else some (p.1, p.2 \ s)) = _
      rw [hf]
    | some t =>
      have hbt : b ∉ t := fun hbt =>
        hnB (mem_lines_of_find (hk ▸ hf) hbt)
      have hbd : b ∈ p.2 \ t := Finset.mem_sdiff.mpr ⟨hb, hbt⟩
      have he : ¬ p.2 \ t = ∅ := fun he => by rw [he] at hbd; exact absurd hbd (Finset.not_mem_empty b)
      refine ⟨(p.1, p.2 \ t), List.mem_filterMap.mpr ⟨p, hpA, ?_⟩, hk, hbd⟩
      show (match lines_find p.1 B with
        | none => some p
        | some s => if p.2 \ s = ∅ then none else some (p.1, p.2 \ s)) = _
      rw [hf]
      dsimp only
      rw [if_neg he]

/-- `reduce_lines` never adds locations (no dict invariant needed). -/
theorem mem_of_mem_reduce {A B : Lines α β} {k : α} {b : β}
    (h : mem_lines k b (reduce_lines A B)) : mem_lines k b A := by
  obtain ⟨q, hq, hk, hb⟩ := h
  obtain ⟨p, hpA, hfp⟩ := List.mem_filterMap.mp hq
  cases hf : lines_find p.1 B with
  | none =>
    rw [hf] at hfp
    cases hfp
    exact ⟨q, hpA, hk, hb⟩
  | some t =>
    rw [hf] at hfp
    dsimp only at hfp
    by_cases he : p.2 \ t = ∅
    · rw [if_pos he] at hfp
      exact absurd hfp (by simp)
    · rw [if_neg he] at hfp
      cases hfp
      simp only [Finset.mem_sdiff] at hb
      exact ⟨p, hpA, hk, hb.1⟩

/-- `equalize_lines` keeps exactly the locations present in both structures.
The dict invariant is needed only for `equalize_by`. -/
theorem mem_equalize_iff {A B : Lines α β} {k : α} {b : β}
    (hB : (lines_keys B).Nodup) :
    mem_lines k b (equalize_lines A B) ↔ mem_lines k b A ∧ mem_lines k b B := by
  constructor
  · rintro ⟨q, hq, hk, hb⟩
    obtain ⟨p, hpA, hfp⟩ := List.mem_filterMap.mp hq
    cases hf : lines_find p.1 B with
    | none => rw [hf] at hfp; exact absurd hfp (by simp)
    | some t =>
      rw [hf] at hfp
      dsimp only at hfp
      by_cases he : p.2 ∩ t = ∅
      · rw [if_pos he] at hfp
        exact absurd hfp (by simp)
      · rw [if_neg he] at hfp
        cases hfp
        simp only [Finset.mem_inter] at hb
        exact ⟨⟨p, hpA, hk, hb.1⟩, mem_lines_of_find (hk ▸ hf) hb.2⟩
  · rintro ⟨⟨p, hpA, hk, hb⟩, hmB⟩
    obtain ⟨r, hrB, hrk, hbr⟩ := hmB
    have hr : (k, r.2) ∈ B := by
      have : (k, r.2) = r := by rw [← hrk]
      rw [this]; exact hrB
    have hfB : lines_find k B = some r.2 := lines_find_of_mem_nodup hB hr
    have hbd : b ∈ p.2 ∩ r.2 := Finset.mem_inter.mpr ⟨hb, hbr⟩
    have he : ¬ p.2 ∩ r.2 = ∅ := fun he => by rw [he] at hbd; exact absurd hbd (Finset.not_mem_empty b)
    refine ⟨(p.1, p.2 ∩ r.2), List.mem_filterMap.mpr ⟨p, hpA, ?_⟩, hk, hbd⟩
    show (match lines_find p.1 B with
      | none => none
      | some s => if p.2 ∩ s = ∅ then none else some (p.1, p.2 ∩ s)) = _
    rw [hk, hfB]
    dsimp only
    rw [if_neg he]

theorem lines_length_append (A B : Lines α β) :
    lines_length (A ++ B) = lines_length A + lines_length B := by
  simp [lines_length]

theorem lines_length_cons (p : α × Finset β) (A : Lines α β) :
    lines_length (p :: A) = p.2.card + lines_length A := by
  simp [lines_length]

/-- Reducing a lines structure never increases its total length
(guess.py lines 193-197: coverage can only shrink the missed set). -/
theorem lines_length_reduce_le (A B : Lines α β) :
    lines_length (reduce_lines A B) ≤ lines_length A := by
  induction A with
  | nil => simp [reduce_lines, lines_length]
  | cons p rest ih =>
    show lines_length (List.filterMap _ (p :: rest)) ≤ _
    rw [List.filterMap_cons]
    cases hf : lines_find p.1 B with
    | none =>
      dsimp only
      rw [lines_length_cons, lines_length_cons]
      exact Nat.add_le_add_left ih _
    | some s =>
      dsimp only
      by_cases he : p.2 \ s = ∅
      · rw [if_pos he]
        dsimp only
        rw [lines_length_cons]
        exact le_trans ih (Nat.le_add_left _ _)
      · rw [if_neg he]
        dsimp only
        rw [lines_length_cons, lines_length_cons]
        exact Nat.add_le_add (Finset.card_le_card Finset.sdiff_subset) ih

/-- Reducing by a nonempty structure whose every entry is a nonempty subset of
the looked-up entry of `scope` strictly decreases the total length.  This is
the termination argument of the `while scope` loop of `get_best_cover`. -/
theorem lines_length_reduce_lt {scope M : Lines α β} (hM : M ≠ [])
    (hsub : ∀ q ∈ M, ∃ S, lines_find q.1 scope = some S ∧ q.2 ⊆ S ∧ q.2.Nonempty) :
    lines_length (reduce_lines scope M) < lines_length scope := by
  cases M with
  | nil => exact absurd rfl hM
  | cons q tl =>
    obtain ⟨S, hfS, hsubS, hne⟩ := hsub q (List.mem_cons_self q tl)
    obtain ⟨pre, post, hdecomp, -⟩ := lines_find_decomp hfS
    rw [hdecomp]
    show lines_length (List.filterMap _ (pre ++ (q.1, S) :: post)) < _
    rw [List.filterMap_append, List.filterMap_cons]
    dsimp only
    rw [lines_find_head]
    dsimp only
    have hpre := lines_length_reduce_le (α := α) (β := β) pre (q :: tl)
    have hpost := lines_length_reduce_le (α := α) (β := β) post (q :: tl)
    have hSpos : 0 < S.card := Finset.card_pos.mpr (hne.mono hsubS)
    by_cases he : S \ q.2 = ∅
    · rw [if_pos he]
      dsimp only
      rw [lines_length_append, lines_length_append, lines_length_cons]
      show lines_length (reduce_lines pre (q :: tl)) +
          lines_length (reduce_lines post (q :: tl)) <
          lines_length pre + (S.card + lines_length post)
      omega
    · rw [if_neg he]
      dsimp only
      rw [lines_length_append, lines_length_cons, lines_length_append, lines_length_cons]
      show lines_length (reduce_lines pre (q :: tl)) +
          ((S \ q.2).card + lines_length (reduce_lines post (q :: tl))) <
          lines_length pre + (S.card + lines_length post)
      have hlt : (S \ q.2).card < S.card :=
        Finset.card_lt_card (Finset.sdiff_ssubset hsubS hne)
      omega

/-- Python `max(subsets, key=lambda x: self.lines_length(subsets[x]))`
(guess.py line 222) over the dict in insertion order: a left fold that
replaces the current best only on a strictly larger length, so the
first-encountered maximal entry wins.  The entry is paired with its lines so
that `subsets[most_cover]` is the second component. -/
def pick_most (q : Nat × Lines α β) (qs : List (Nat × Lines α β)) : Nat × Lines α β :=
  qs.foldl (fun best x => if lines_length x.2 > lines_length best.2 then x else best) q

/-- One pass of the loop body of `get_best_cover` (guess.py lines 217-219):
equalize every remaining subset against the current scope and drop the ones
that became empty (`len(v) > 0`). -/
def get_best_cover_round (scope : Lines α β) (subsets : List (Nat × Lines α β)) :
    List (Nat × Lines α β) :=
  (subsets.map fun p => (p.1, equalize_lines p.2 scope)).filter fun p => !p.2.isEmpty

/-- The `while scope` loop of `Guesser.get_best_cover` (guess.py lines
216-224).  The loop either ends (scope exhausted, or no subset still
contributes) or strictly decreases `lines_length scope`
(`lines_length_reduce_lt`), so the fuel `lines_length scope + 1` used by
`get_best_cover` is never exhausted. -/
def get_best_cover_aux : Nat → Lines α β → List (Nat × Lines α β) → Finset Nat →
    Finset Nat × Lines α β
  | 0, scope, _, cases => (cases, scope)
  | fuel + 1, scope, subsets, cases =>
    if scope.isEmpty then (cases, scope) else
    match get_best_cover_round scope subsets with
    | [] => (cases, scope)
    | q :: qs =>
      get_best_cover_aux fuel (reduce_lines scope (pick_most q qs).2) (q :: qs)
        (insert (pick_most q qs).1 cases)

/-- `Guesser.get_best_cover` (guess.py lines 205-226): `scope` is a deep copy
of the tracer's scope and `subsets` holds, per recorded run id in insertion
order, a deep copy of the run's recorded lines. -/
def get_best_cover (scope : Lines α β) (subsets : List (Nat × Lines α β)) :
    Finset Nat × Lines α β :=
  get_best_cover_aux (lines_length scope + 1) scope subsets ∅

theorem pick_most_spec (q : Nat × Lines α β) (qs : List (Nat × Lines α β)) :
    pick_most q qs = q ∨
      (pick_most q qs ∈ qs ∧ lines_length q.2 < lines_length (pick_most q qs).2) := by
  induction qs generalizing q with
  | nil => exact Or.inl rfl
  | cons y rest ih =>
    by_cases hy : lines_length y.2 > lines_length q.2
    · have hstep : pick_most q (y :: rest) = pick_most y rest := by
        show pick_most (if lines_length y.2 > lines_length q.2 then y else q) rest = _
        rw [if_pos hy]
      rcases ih y with h1 | h2
      · refine Or.inr ⟨?_, ?_⟩
        · rw [hstep, h1]; exact List.mem_cons_self y rest
        · rw [hstep, h1]; exact hy
      · refine Or.inr ⟨?_, ?_⟩
        · rw [hstep]; exact List.mem_cons_of_mem y h2.1
        · rw [hstep]; exact lt_trans hy h2.2
    · have hstep : pick_most q (y :: rest) = pick_most q rest := by
        show pick_most (if lines_length y.2 > lines_length q.2 then y else q) rest = _
        rw [if_neg hy]
      rcases ih q with h1 | h2
      · exact Or.inl (hstep.trans h1)
      · refine Or.inr ⟨?_, ?_⟩
        · rw [hstep]; exact List.mem_cons_of_mem y h2.1
        · rw [hstep]; exact h2.2

theorem pick_most_mem (q : Nat × Lines α β) (qs : List (Nat × Lines α β)) :
    pick_most q qs ∈ q :: qs := by
  rcases pick_most_spec q qs with h | h
  · rw [h]; exact List.mem_cons_self q qs
  · exact List.mem_cons_of_mem q h.1

theorem pick_most_max (q : Nat × Lines α β) (qs : List (Nat × Lines α β)) :
    ∀ x ∈ q :: qs, lines_length x.2 ≤ lines_length (pick_most q qs).2 := by
  induction qs generalizing q with
  | nil =>
    intro x hx
    rcases List.mem_cons.mp hx with h | h
    · rw [h]; exact le_refl _
    · cases h
  | cons y rest ih =>
    intro x hx
    by_cases hy : lines_length y.2 > lines_length q.2
    · have hstep : pick_most q (y :: rest) = pick_most y rest := by
        show pick_most (if lines_length y.2 > lines_length q.2 then y else q) rest = _
        rw [if_pos hy]
      rw [hstep]
      rcases List.mem_cons.mp hx with h | h
      · rw [h]
        exact le_of_lt (lt_of_lt_of_le hy (ih y y (List.mem_cons_self y rest)))
      · exact ih y x h
    · have hstep : pick_most q (y :: rest) = pick_most q rest := by
        show pick_most (if lines_length y.2 > lines_length q.2 then y else q) rest = _
        rw [if_neg hy]
      rw [hstep]
      rcases List.mem_cons.mp hx with h | h
      · rw [h]; exact ih q q (List.mem_cons_self q rest)
      · rcases List.mem_cons.mp h with h2 | h2
        · rw [h2]
          exact le_trans (le_of_not_lt hy) (ih q q (List.mem_cons_self q rest))
        · exact ih q x (List.mem_cons_of_mem q h2)

/-- First-encountered wins: under strictly increasing run ids (dict insertion
order of the recorded runs), every entry tying with the chosen maximum has a
run id at least as large as the chosen one. -/
theorem pick_most_tie (q : Nat × Lines α β) (qs : List (Nat × Lines α β))
    (h : (q :: qs).Pairwise (fun a b => a.1 < b.1)) :
    ∀ x ∈ q :: qs, lines_length x.2 = lines_length (pick_most q qs).2 →
      (pick_most q qs).1 ≤ x.1 := by
  induction qs generalizing q with
  | nil =>
    intro x hx htie
    rcases List.mem_cons.mp hx with h1 | h1
    · rw [h1]; exact le_refl _
    · cases h1
  | cons y rest ih =>
    obtain ⟨hq_all, hyrest⟩ := List.pairwise_cons.mp h
    obtain ⟨hy_all, hrest⟩ := List.pairwise_cons.mp hyrest
    intro x hx htie
    by_cases hy : lines_length y.2 > lines_length q.2
    · have hstep : pick_most q (y :: rest) = pick_most y rest := by
        show pick_most (if lines_length y.2 > lines_length q.2 then y else q) rest = _
        rw [if_pos hy]
      rw [hstep] at htie ⊢
      rcases List.mem_cons.mp hx with h1 | h1
      · exfalso
        have hmax := pick_most_max y rest y (List.mem_cons_self y rest)
        rw [h1] at htie
        omega
      · exact ih y hyrest x h1 htie
    · have hstep : pick_most q (y :: rest) = pick_most q rest := by
        show pick_most (if lines_length y.2 > lines_length q.2 then y else q) rest = _
        rw [if_neg hy]
      rw [hstep] at htie ⊢
      have hq_pair : (q :: rest).Pairwise (fun a b => a.1 < b.1) :=
        List.pairwise_cons.mpr ⟨fun z hz => hq_all z (List.mem_cons_of_mem y hz), hrest⟩
      rcases List.mem_cons.mp hx with h1 | h1
      · exact ih q hq_pair x (h1 ▸ List.mem_cons_self q rest) htie
      · rcases List.mem_cons.mp h1 with h2 | h2
        · rcases pick_most_spec q rest with h3 | h3
          · rw [h3, h2]
            exact le_of_lt (hq_all y (List.mem_cons_self y rest))
          · exfalso
            rw [h2] at htie
            omega
        · exact ih q hq_pair x (List.mem_cons_of_mem q h2) htie

/-- One loop round keeps the run ids strictly increasing: the equalize map
keeps ids and the filter only removes entries. -/
theorem get_best_cover_round_pairwise (scope : Lines α β)
    (subsets : List (Nat × Lines α β))
    (h : subsets.Pairwise (fun a b => a.1 < b.1)) :
    (get_best_cover_round scope subsets).Pairwise (fun a b => a.1 < b.1) := by
  have hmap : (subsets.map fun p => (p.1, equalize_lines p.2 scope)).Pairwise
      (fun a b => a.1 < b.1) := by
    refine List.Pairwise.map _ ?_ h
    intro a b hab
    exact hab
  exact List.Pairwise.sublist (List.filter_sublist _) hmap

theorem equalize_entry {A B : Lines α β} {q : α × Finset β}
    (h : q ∈ equalize_lines A B) :
    ∃ S, lines_find q.1 B = some S ∧ q.2 ⊆ S ∧ q.2.Nonempty := by
  obtain ⟨p, hpA, hfp⟩ := List.mem_filterMap.mp h
  cases hf : lines_find p.1 B with
  | none => rw [hf] at hfp; exact absurd hfp (by simp)
  | some S =>
    rw [hf] at hfp
    dsimp only at hfp
    by_cases he : p.2 ∩ S = ∅
    · rw [if_pos he] at hfp
      exact absurd hfp (by simp)
    · rw [if_neg he] at hfp
      cases hfp
      exact ⟨S, hf, Finset.inter_subset_right,
        Finset.nonempty_iff_ne_empty.mpr he⟩

theorem mem_round_iff {scope : Lines α β} {subsets : List (Nat × Lines α β)}
    {p' : Nat × Lines α β} :
    p' ∈ get_best_cover_round scope subsets ↔
      (∃ p ∈ subsets, p' = (p.1, equalize_lines p.2 scope)) ∧ p'.2 ≠ [] := by
  simp only [get_best_cover_round, List.mem_filter, List.mem_map,
    Bool.not_eq_eq_eq_not, Bool.not_true]
  constructor
  · rintro ⟨⟨p, hp, hmap⟩, hne⟩
    refine ⟨⟨p, hp, hmap.symm⟩, fun he => ?_⟩
    rw [he] at hne
    simp at hne
  · rintro ⟨⟨p, hp, hmap⟩, hne⟩
    refine ⟨⟨p, hp, hmap.symm⟩, ?_⟩
    cases hp2 : p'.2 with
    | nil => exact absurd hp2 hne
    | cons a l => simp [List.isEmpty, hp2]

theorem lines_ne_nil_of_mem {k : α} {b : β} {l : Lines α β}
    (h : mem_lines k b l) : l ≠ [] := by
  obtain ⟨p, hp, -⟩ := h
  intro he
  rw [he] at hp
  cases hp

/-- Full functional specification of the `get_best_cover` loop, proved by
induction on the fuel: the final `scope` (the value returned as the missed
lines) consists exactly of the locations of the initial scope covered by no
subset, the accumulated case set only grows, and every location removed from
the scope is covered by some subset whose run id was selected. -/
theorem get_best_cover_aux_spec :
    ∀ (fuel : Nat) (scope : Lines α β) (subsets : List (Nat × Lines α β))
      (cs : Finset Nat),
      (lines_keys scope).Nodup →
      (∀ p ∈ subsets, (lines_keys p.2).Nodup) →
      lines_length scope < fuel →
      (∀ k b, mem_lines k b (get_best_cover_aux fuel scope subsets cs).2 ↔
          mem_lines k b scope ∧ ∀ p ∈ subsets, ¬ mem_lines k b p.2) ∧
      cs ⊆ (get_best_cover_aux fuel scope subsets cs).1 ∧
      (∀ k b, mem_lines k b scope →
          ¬ mem_lines k b (get_best_cover_aux fuel scope subsets cs).2 →
          ∃ p ∈ subsets, p.1 ∈ (get_best_cover_aux fuel scope subsets cs).1 ∧
            mem_lines k b p.2) := by
  intro fuel
  induction fuel with
  | zero =>
    intro scope subsets cs hscope hsubs hfuel
    exact absurd hfuel (Nat.not_lt_zero _)
  | succ fuel ih =>
    intro scope subsets cs hscope hsubs hfuel
    have hunfold : get_best_cover_aux (fuel + 1) scope subsets cs =
        if scope.isEmpty then (cs, scope) else
        match get_best_cover_round scope subsets with
        | [] => (cs, scope)
        | q :: qs =>
          get_best_cover_aux fuel (reduce_lines scope (pick_most q qs).2) (q :: qs)
            (insert (pick_most q qs).1 cs) := rfl
    by_cases hempty : scope.isEmpty
    · have hnil : scope = [] := List.isEmpty_iff.mp hempty
      rw [hunfold, if_pos hempty]
      subst hnil
      refine ⟨fun k b => ?_, Finset.Subset.refl cs, fun k b hsc _ => ?_⟩
      · constructor
        · intro hm
          exact absurd hm (not_mem_lines_nil k b)
        · rintro ⟨hm, -⟩
          exact absurd hm (not_mem_lines_nil k b)
      · exact absurd hsc (not_mem_lines_nil k b)
    · rw [hunfold, if_neg hempty]
      cases hround : get_best_cover_round scope subsets with
      | nil =>
        have hnone : ∀ p ∈ subsets, ∀ k b, ¬ (mem_lines k b p.2 ∧ mem_lines k b scope) := by
          rintro p hp k b ⟨h1, h2⟩
          have hmeq : mem_lines k b (equalize_lines p.2 scope) :=
            (mem_equalize_iff hscope).mpr ⟨h1, h2⟩
          have hmem : (p.1, equalize_lines p.2 scope) ∈ get_best_cover_round scope subsets :=
            mem_round_iff.mpr ⟨⟨p, hp, rfl⟩, lines_ne_nil_of_mem hmeq⟩
          rw [hround] at hmem
          cases hmem
        refine ⟨fun k b => ?_, Finset.Subset.refl cs, fun k b hsc hns => ?_⟩
        · constructor
          · intro hm
            exact ⟨hm, fun p hp hmp => hnone p hp k b ⟨hmp, hm⟩⟩
          · rintro ⟨hm, -⟩
            exact hm
        · exact absurd hsc hns
      | cons q qs =>
        have hmost_mem : pick_most q qs ∈ get_best_cover_round scope subsets := by
          rw [hround]
          exact pick_most_mem q qs
        obtain ⟨⟨p₀, hp₀, hmost_eq⟩, hmost_ne⟩ := mem_round_iff.mp hmost_mem
        have hmost2 : (pick_most q qs).2 = equalize_lines p₀.2 scope := by
          rw [hmost_eq]
        have hmost1 : (pick_most q qs).1 = p₀.1 := by
          rw [hmost_eq]
        have hsub' : ∀ x ∈ (pick_most q qs).2, ∃ S, lines_find x.1 scope = some S ∧
            x.2 ⊆ S ∧ x.2.Nonempty := by
          intro x hx
          rw [hmost2] at hx
          exact equalize_entry hx
        have hlt : lines_length (reduce_lines scope (pick_most q qs).2) <
            lines_length scope :=
          lines_length_reduce_lt hmost_ne hsub'
        have hscope' : (lines_keys (reduce_lines scope (pick_most q qs).2)).Nodup :=
          (lines_keys_reduce_sublist _ _).nodup hscope
        have hsubs' : ∀ p ∈ q :: qs, (lines_keys p.2).Nodup := by
          intro p hp
          rw [← hround] at hp
          obtain ⟨⟨r, hr, heq⟩, -⟩ := mem_round_iff.mp hp
          rw [heq]
          exact (lines_keys_equalize_sublist _ _).nodup (hsubs r hr)
        have hfuel' : lines_length (reduce_lines scope (pick_most q qs).2) < fuel := by
          omega
        obtain ⟨IH1, IH2, IH3⟩ := ih (reduce_lines scope (pick_most q qs).2) (q :: qs)
          (insert (pick_most q qs).1 cs) hscope' hsubs' hfuel'
        have hmost2_nodup : (lines_keys (pick_most q qs).2).Nodup := by
          rw [hmost2]
          exact (lines_keys_equalize_sublist _ _).nodup (hsubs p₀ hp₀)
        have F1 : ∀ k b, mem_lines k b (reduce_lines scope (pick_most q qs).2) ↔
            mem_lines k b scope ∧ ¬ mem_lines k b (pick_most q qs).2 :=
          fun k b => mem_reduce_iff hmost2_nodup
        have F2 : ∀ k b, mem_lines k b (pick_most q qs).2 ↔
            mem_lines k b p₀.2 ∧ mem_lines k b scope := by
          intro k b
          rw [hmost2]
          exact mem_equalize_iff hscope
        have F3 : ∀ k b, (∀ p ∈ q :: qs, ¬ mem_lines k b p.2) ↔
            (∀ p ∈ subsets, ¬ (mem_lines k b p.2 ∧ mem_lines k b scope)) := by
          intro k b
          constructor
          · rintro hall p hp ⟨h1, h2⟩
            have hmeq : mem_lines k b (equalize_lines p.2 scope) :=
              (mem_equalize_iff hscope).mpr ⟨h1, h2⟩
            have hmem : (p.1, equalize_lines p.2 scope) ∈ get_best_cover_round scope subsets :=
              mem_round_iff.mpr ⟨⟨p, hp, rfl⟩, lines_ne_nil_of_mem hmeq⟩
            rw [hround] at hmem
            exact hall _ hmem hmeq
          · intro hall p hp hmp
            rw [← hround] at hp
            obtain ⟨⟨r, hr, heq⟩, -⟩ := mem_round_iff.mp hp
            rw [heq] at hmp
            obtain ⟨h1, h2⟩ := (mem_equalize_iff hscope).mp hmp
            exact hall r hr ⟨h1, h2⟩
        refine ⟨fun k b => ?_, ?_, fun k b hsc hns => ?_⟩
        · rw [IH1]
          constructor
          · rintro ⟨hsc', hall'⟩
            have hsc : mem_lines k b scope := ((F1 k b).mp hsc').1
            refine ⟨hsc, fun p hp hmp => ?_⟩
            exact (F3 k b).mp hall' p hp ⟨hmp, hsc⟩
          · rintro ⟨hsc, hall⟩
            refine ⟨(F1 k b).mpr ⟨hsc, fun hm => ?_⟩, (F3 k b).mpr
              (fun p hp hc => hall p hp hc.1)⟩
            exact hall p₀ hp₀ ((F2 k b).mp hm).1
        · exact Finset.Subset.trans (Finset.subset_insert _ cs) IH2
        · by_cases hsc' : mem_lines k b (reduce_lines scope (pick_most q qs).2)
          · obtain ⟨p', hp', hid, hmem'⟩ := IH3 k b hsc' hns
            rw [← hround] at hp'
            obtain ⟨⟨r, hr, heq⟩, -⟩ := mem_round_iff.mp hp'
            rw [heq] at hmem' hid
            exact ⟨r, hr, hid, ((mem_equalize_iff hscope).mp hmem').1⟩
          · have hm : mem_lines k b (pick_most q qs).2 := by
              by_contra hnm
              exact hsc' ((F1 k b).mpr ⟨hsc, hnm⟩)
            refine ⟨p₀, hp₀, ?_, ((F2 k b).mp hm).1⟩
            rw [← hmost1]
            exact IH2 (Finset.mem_insert_self _ _)

/-- C1 (amended): for every recorded run history, `get_best_cover` returns a
pair `(cases, remaining)` such that (a) `remaining` is exactly the portion of
the tracer's scope not covered by any recorded run, and (b) the union of the
recorded location-sets of the selected run ids, restricted to the scope,
equals `scope` minus `remaining`.  (The unrestricted union can exceed
`scope`, because the tracer records every executed line of an in-scope file,
see the counterexample.)  The `Nodup` hypotheses are the Python dict
invariant (distinct keys). -/
theorem c1_best_cover_sound (scope : Lines α β) (subsets : List (Nat × Lines α β))
    (hscope : (lines_keys scope).Nodup)
    (hsubs : ∀ p ∈ subsets, (lines_keys p.2).Nodup) :
    (∀ k b, mem_lines k b (get_best_cover scope subsets).2 ↔
        mem_lines k b scope ∧ ∀ p ∈ subsets, ¬ mem_lines k b p.2) ∧
    (∀ k b, ((∃ p ∈ subsets, p.1 ∈ (get_best_cover scope subsets).1 ∧ mem_lines k b p.2) ∧
        mem_lines k b scope) ↔
      (mem_lines k b scope ∧ ¬ mem_lines k b (get_best_cover scope subsets).2)) := by
  obtain ⟨H1, H2, H3⟩ := get_best_cover_aux_spec (lines_length scope + 1) scope subsets ∅
    hscope hsubs (Nat.lt_succ_self _)
  refine ⟨H1, fun k b => ⟨?_, ?_⟩⟩
  · rintro ⟨⟨p, hp, hsel, hmp⟩, hsc⟩
    refine ⟨hsc, fun hm => ?_⟩
    exact ((H1 k b).mp hm).2 p hp hmp
  · rintro ⟨hsc, hns⟩
    exact ⟨H3 k b hsc hns, hsc⟩

/-- Witness for `c1_best_cover_sound` at a concrete history: scope
`{0 ↦ {1, 2}}` and two runs `0 ↦ {0 ↦ {1}}`, `1 ↦ {0 ↦ {2}}`. -/
theorem c1_best_cover_sound_witness :
    ((lines_keys [((0 : Nat), ({1, 2} : Finset Nat))]).Nodup ∧
      (∀ p ∈ [((0 : Nat), [((0 : Nat), ({1} : Finset Nat))]),
          (1, [(0, ({2} : Finset Nat))])], (lines_keys p.2).Nodup)) ∧
    ((∀ k b, mem_lines k b (get_best_cover [((0 : Nat), ({1, 2} : Finset Nat))]
        [(0, [(0, ({1} : Finset Nat))]), (1, [(0, ({2} : Finset Nat))])]).2 ↔
        mem_lines k b [((0 : Nat), ({1, 2} : Finset Nat))] ∧
          ∀ p ∈ [((0 : Nat), [((0 : Nat), ({1} : Finset Nat))]),
            (1, [(0, ({2} : Finset Nat))])], ¬ mem_lines k b p.2) ∧
      (∀ k b, ((∃ p ∈ [((0 : Nat), [((0 : Nat), ({1} : Finset Nat))]),
            (1, [(0, ({2} : Finset Nat))])],
          p.1 ∈ (get_best_cover [((0 : Nat), ({1, 2} : Finset Nat))]
            [(0, [(0, ({1} : Finset Nat))]), (1, [(0, ({2} : Finset Nat))])]).1 ∧
          mem_lines k b p.2) ∧
          mem_lines k b [((0 : Nat), ({1, 2} : Finset Nat))]) ↔
        (mem_lines k b [((0 : Nat), ({1, 2} : Finset Nat))] ∧
          ¬ mem_lines k b (get_best_cover [((0 : Nat), ({1, 2} : Finset Nat))]
            [(0, [(0, ({1} : Finset Nat))]), (1, [(0, ({2} : Finset Nat))])]).2))) :=
  ⟨⟨by decide, by decide⟩, c1_best_cover_sound _ _ (by decide) (by decide)⟩

/-- C1 counterexample to the claim as stated: with scope `{0 ↦ {1}}` and one
run recorded as `{0 ↦ {1, 2}}` (the tracer also recorded line 2, outside the
static scope), the run is selected and `remaining` is empty, yet the union of
the recorded location-sets of the selected runs contains `(0, 2)`, which
`scope − remaining` does not: the claimed equality fails at that location. -/
theorem c1_best_cover_counterexample :
    (∃ p ∈ [((0 : Nat), [((0 : Nat), ({1, 2} : Finset Nat))])],
        p.1 ∈ (get_best_cover [((0 : Nat), ({1} : Finset Nat))]
          [(0, [(0, ({1, 2} : Finset Nat))])]).1 ∧ mem_lines 0 2 p.2) ∧
      ¬ (mem_lines 0 2 [((0 : Nat), ({1} : Finset Nat))] ∧
        ¬ mem_lines 0 2 (get_best_cover [((0 : Nat), ({1} : Finset Nat))]
          [(0, [(0, ({1, 2} : Finset Nat))])]).2) := by
  decide

/-- C4: in each greedy round of `get_best_cover`, the entry selected by
`max(subsets, key=lines_length)` (embedded as `pick_most`) is a member of the
candidate list, has maximal length, and among equally long candidates has the
smallest run id — the first-encountered in dict insertion order, which is
run-recording order since the round transformation preserves the strictly
increasing id order.  Determinism is inherent: `pick_most` is a function of
the recorded history. -/
theorem c4_tie_break (q : Nat × Lines α β) (qs : List (Nat × Lines α β))
    (h : (q :: qs).Pairwise (fun a b => a.1 < b.1)) :
    (pick_most q qs ∈ q :: qs) ∧
    (∀ x ∈ q :: qs, lines_length x.2 ≤ lines_length (pick_most q qs).2) ∧
    (∀ x ∈ q :: qs, lines_length x.2 = lines_length (pick_most q qs).2 →
      (pick_most q qs).1 ≤ x.1) ∧
    (∀ (scope : Lines α β) (subsets : List (Nat × Lines α β)),
      subsets.Pairwise (fun a b => a.1 < b.1) →
      (get_best_cover_round scope subsets).Pairwise (fun a b => a.1 < b.1)) :=
  ⟨pick_most_mem q qs, pick_most_max q qs, pick_most_tie q qs h,
    fun scope subsets hs => get_best_cover_round_pairwise scope subsets hs⟩

/-- Witness for `c4_tie_break`: two runs with equal contribution
`{0 ↦ {5}}`; the one with the smaller id is picked. -/
theorem c4_tie_break_witness :
    (([((0 : Nat), [((0 : Nat), ({5} : Finset Nat))]),
        (1, [(0, ({5} : Finset Nat))])]).Pairwise (fun a b => a.1 < b.1)) ∧
    ((pick_most ((0 : Nat), [((0 : Nat), ({5} : Finset Nat))])
        [(1, [(0, ({5} : Finset Nat))])] ∈
        [((0 : Nat), [((0 : Nat), ({5} : Finset Nat))]), (1, [(0, ({5} : Finset Nat))])]) ∧
      (∀ x ∈ [((0 : Nat), [((0 : Nat), ({5} : Finset Nat))]), (1, [(0, ({5} : Finset Nat))])],
        lines_length x.2 ≤ lines_length (pick_most ((0 : Nat), [((0 : Nat), ({5} : Finset Nat))])
          [(1, [(0, ({5} : Finset Nat))])]).2) ∧
      (∀ x ∈ [((0 : Nat), [((0 : Nat), ({5} : Finset Nat))]), (1, [(0, ({5} : Finset Nat))])],
        lines_length x.2 = lines_length (pick_most ((0 : Nat), [((0 : Nat), ({5} : Finset Nat))])
          [(1, [(0, ({5} : Finset Nat))])]).2 →
        (pick_most ((0 : Nat), [((0 : Nat), ({5} : Finset Nat))])
          [(1, [(0, ({5} : Finset Nat))])]).1 ≤ x.1) ∧
      (∀ (scope : Lines Nat Nat) (subsets : List (Nat × Lines Nat Nat)),
        subsets.Pairwise (fun a b => a.1 < b.1) →
        (get_best_cover_round scope subsets).Pairwise (fun a b => a.1 < b.1))) :=
  ⟨by decide, c4_tie_break _ _ (by decide)⟩

/-! ### The Guesser run loop (guess.py lines 108-203)

The loop is driven by the environment: generated arguments, the lines the
tracer attributes to the run, the call's outcome and the wall-clock reading
at each pre-iteration check.  One `IterationPlan` packages these per
iteration; the unbounded `while` loop corresponds to quantifying over
arbitrarily long finite schedules of plans. -/

/-- A Python exception instance, abstracted to its type.  Suppression sets
(`except suppress_exceptions`) are modelled as sets of type names, taken to
be closed under subclassing as `isinstance` is. -/
structure PyExc where
  kind : String
deriving DecidableEq

/-- A Python object stored as a run's outcome: either a non-exception value
(abstracted to a tag) or an `Exception` instance. -/
inductive PyObject
  | value (tag : Nat)
  | excInstance (e : PyExc)
deriving DecidableEq

/-- `isinstance(x, Exception)` on stored outcomes. -/
def is_exception_instance : PyObject → Bool
  | .excInstance _ => true
  | .value _ => false

namespace StopConditions

/-- guess.py line 22. -/
def FULL_COVERAGE : Nat := 1

/-- guess.py line 23. -/
def TIMEOUT : Nat := 2

/-- guess.py line 24. -/
def CALL_LIMIT : Nat := 4

/-- guess.py line 25. -/
def EXCEPTION_RAISED : Nat := 8

end StopConditions

/-- Python dict lookup `d[k]` for the run dictionaries. -/
def dict_find {V : Type} (k : Nat) : List (Nat × V) → Option V
  | [] => none
  | p :: rest => if p.1 = k then some p.2 else dict_find k rest

/-- Python dict assignment `d[k] = v`: replace in place if the key exists
(keeping its position), else append. -/
def dict_insert {V : Type} (k : Nat) (v : V) : List (Nat × V) → List (Nat × V)
  | [] => [(k, v)]
  | p :: rest => if p.1 = k then (k, v) :: rest else p :: dict_insert k v rest

/-- The state of `Guesser.guess` while the loop runs: `scope` is
`self.__tracer.scope`, the rest are `self.__run_arguments` (argument tuples
abstracted to tags), `self.__runs_with_results`, the working `missed_lines`
copy and `call_count`. -/
structure GuesserState (α β : Type) where
  scope : Lines α β
  run_arguments : List Nat
  runs_with_results : List (Nat × (Lines α β × PyObject))
  missed_lines : Lines α β
  call_count : Nat

/-- The third stop condition (guess.py lines 130-133):
`0 < call_count <= len(runs_with_results)` and the last recorded outcome is
an `Exception` instance. -/
def exception_raised_check {α β : Type}
    (call_count : Nat) (runs : List (Nat × (Lines α β × PyObject))) : Bool :=
  decide (0 < call_count) && decide (call_count ≤ runs.length) &&
    (match dict_find (call_count - 1) runs with
     | some r => is_exception_instance r.2
     | none => false)

/-- `Guesser.check_stop_conditions` (guess.py lines 108-138), in source
order: call limit, timeout, exception raised, full coverage
(`len(missed_lines) == 0` is dict emptiness). -/
def check_stop_conditions {α β : Type} (stop_conditions : Nat) (call_count : Nat)
    (call_limit : WithTop Nat) (execution_time timeout : ℚ)
    (runs : List (Nat × (Lines α β × PyObject))) (missed_lines : Lines α β) : Bool :=
  (decide (stop_conditions &&& StopConditions.CALL_LIMIT ≠ 0) &&
      decide (call_limit ≤ (call_count : WithTop Nat))) ||
  (decide (stop_conditions &&& StopConditions.TIMEOUT ≠ 0) &&
      decide (timeout ≤ execution_time)) ||
  (decide (stop_conditions &&& StopConditions.EXCEPTION_RAISED ≠ 0) &&
      exception_raised_check call_count runs) ||
  (decide (stop_conditions &&& StopConditions.FULL_COVERAGE ≠ 0) &&
      missed_lines.isEmpty)

/-- The behaviour of one loop iteration, supplied by the environment:
the generated `(args, kwargs)` (opaque tag), the lines the tracer attributes
to this run id, whether the entry function returned or raised, and the
elapsed time observed at the pre-iteration stop-condition check. -/
structure IterationPlan (α β : Type) where
  args : Nat
  lines : Lines α β
  outcome : PyObject ⊕ PyExc
  elapsed : ℚ

/-- Recording a completed run (guess.py lines 191-195):
`runs_with_results[call_count] = (tracer.runs[call_count], result)`, then the
coverage update `reduce_lines(missed_lines, ...)` and `call_count += 1`. -/
def record_run {α β : Type} [DecidableEq α] [DecidableEq β]
    (st : GuesserState α β) (lines : Lines α β) (result : PyObject) :
    GuesserState α β :=
  { st with
    runs_with_results := dict_insert st.call_count (lines, result) st.runs_with_results,
    missed_lines := reduce_lines st.missed_lines lines,
    call_count := st.call_count + 1 }

/-- The body of one loop iteration (guess.py lines 178-195): the argument
tuple is appended to `run_arguments` before the call; a raised exception
matching the suppression set becomes the run's result; an unmatched
exception propagates, carrying the Guesser's state as it stands. -/
def guess_iteration {α β : Type} [DecidableEq α] [DecidableEq β]
    (suppress : List String) (st : GuesserState α β) (p : IterationPlan α β) :
    Except (PyExc × GuesserState α β) (GuesserState α β) :=
  let st1 := { st with run_arguments := st.run_arguments ++ [p.args] }
  match p.outcome with
  | .inl v => .ok (record_run st1 p.lines v)
  | .inr e =>
    if e.kind ∈ suppress then .ok (record_run st1 p.lines (.excInstance e))
    else .error (e, st1)

/-- The `while not check_stop_conditions(...)` loop (guess.py lines
175-201), over a finite schedule of iteration behaviours. -/
def guess_loop {α β : Type} [DecidableEq α] [DecidableEq β] (stop_conditions : Nat)
    (call_limit : WithTop Nat) (timeout : ℚ) (suppress : List String) :
    GuesserState α β → List (IterationPlan α β) →
    Except (PyExc × GuesserState α β) (GuesserState α β)
  | st, [] => .ok st
  | st, p :: rest =>
    if check_stop_conditions stop_conditions st.call_count call_limit p.elapsed timeout
        st.runs_with_results st.missed_lines
    then .ok st
    else
      match guess_iteration suppress st p with
      | .ok st' => guess_loop stop_conditions call_limit timeout suppress st' rest
      | .error es => .error es

/-- The fields of the Guesser object that persist across `guess()` calls
(`self.__run_arguments`, `self.__runs_with_results`). -/
structure GuesserStore (α β : Type) where
  run_arguments : List Nat
  runs_with_results : List (Nat × (Lines α β × PyObject))

/-- Entry into `guess()` (guess.py lines 158-160 and `Tracer.__enter__`):
`run_arguments` is reset to `[]`, `missed_lines` becomes a deep copy of the
tracer's scope, `call_count` starts at 0 — while `runs_with_results` is
carried over unchanged from the previous invocation. -/
def guess_init {α β : Type} (scope : Lines α β) (store : GuesserStore α β) :
    GuesserState α β :=
  ⟨scope, [], store.runs_with_results, scope, 0⟩

/-- One whole `guess()` invocation over a schedule. -/
def guess_run {α β : Type} [DecidableEq α] [DecidableEq β] (stop_conditions : Nat)
    (call_limit : WithTop Nat) (timeout : ℚ) (suppress : List String)
    (scope : Lines α β) (store : GuesserStore α β)
    (plans : List (IterationPlan α β)) :
    Except (PyExc × GuesserStore α β) (GuesserStore α β) :=
  match guess_loop stop_conditions call_limit timeout suppress
      (guess_init scope store) plans with
  | .ok st => .ok ⟨st.run_arguments, st.runs_with_results⟩
  | .error (e, st) => .error (e, ⟨st.run_arguments, st.runs_with_results⟩)

/-- The Guesser state as it stands when the loop ends, normally or by a
propagating exception. -/
def loop_final_state {α β : Type}
    (r : Except (PyExc × GuesserState α β) (GuesserState α β)) : GuesserState α β :=
  match r with
  | .ok st => st
  | .error (_, st) => st

/-- The store as it stands after `guess_run`, normally or by a propagating
exception (the Guesser object keeps its fields either way). -/
def run_result_store {α β : Type}
    (r : Except (PyExc × GuesserStore α β) (GuesserStore α β)) : GuesserStore α β :=
  match r with
  | .ok s => s
  | .error (_, s) => s

theorem dict_find_insert_self {V : Type} (k : Nat) (v : V) (d : List (Nat × V)) :
    dict_find k (dict_insert k v d) = some v := by
  induction d with
  | nil => simp [dict_find, dict_insert]
  | cons p rest ih =>
    by_cases hp : p.1 = k
    · simp [dict_insert, dict_find, hp]
    · simp only [dict_insert, if_neg hp, dict_find]
      exact ih

theorem mem_dict_insert_self {V : Type} (k : Nat) (v : V) (d : List (Nat × V)) :
    (k, v) ∈ dict_insert k v d := by
  induction d with
  | nil => simp [dict_insert]
  | cons p rest ih =>
    by_cases hp : p.1 = k
    · simp [dict_insert, hp]
    · simp only [dict_insert, if_neg hp]
      exact List.mem_cons_of_mem p ih

theorem guess_loop_state_inv (sc : Nat) (cl : WithTop Nat) (tmo : ℚ)
    (sup : List String) (scope : Lines α β) :
    ∀ (plans : List (IterationPlan α β)) (st : GuesserState α β),
      st.scope = scope →
      (∀ k b, mem_lines k b st.missed_lines → mem_lines k b scope) →
      lines_length st.missed_lines ≤ lines_length scope →
      ((loop_final_state (guess_loop sc cl tmo sup st plans)).scope = scope ∧
       (∀ k b, mem_lines k b
          (loop_final_state (guess_loop sc cl tmo sup st plans)).missed_lines →
          mem_lines k b scope) ∧
       lines_length (loop_final_state (guess_loop sc cl tmo sup st plans)).missed_lines ≤
          lines_length scope) := by
  intro plans
  induction plans with
  | nil =>
    intro st h1 h2 h3
    exact ⟨h1, h2, h3⟩
  | cons p rest ih =>
    intro st h1 h2 h3
    have hul : guess_loop sc cl tmo sup st (p :: rest) =
        if check_stop_conditions sc st.call_count cl p.elapsed tmo
            st.runs_with_results st.missed_lines
        then .ok st
        else match guess_iteration sup st p with
          | .ok st' => guess_loop sc cl tmo sup st' rest
          | .error es => .error es := rfl
    rw [hul]
    by_cases hc : check_stop_conditions sc st.call_count cl p.elapsed tmo
        st.runs_with_results st.missed_lines = true
    · rw [if_pos hc]
      exact ⟨h1, h2, h3⟩
    · rw [if_neg hc]
      cases hout : p.outcome with
      | inl v =>
        have hit : guess_iteration sup st p =
            .ok (record_run { st with run_arguments := st.run_arguments ++ [p.args] }
              p.lines v) := by
          simp [guess_iteration, hout]
        rw [hit]
        refine ih _ h1 ?_ ?_
        · intro k b hm
          exact h2 k b (mem_of_mem_reduce hm)
        · exact le_trans (lines_length_reduce_le _ _) h3
      | inr e =>
        by_cases hk : e.kind ∈ sup
        · have hit : guess_iteration sup st p =
              .ok (record_run { st with run_arguments := st.run_arguments ++ [p.args] }
                p.lines (.excInstance e)) := by
            simp [guess_iteration, hout, if_pos hk]
          rw [hit]
          refine ih _ h1 ?_ ?_
          · intro k b hm
            exact h2 k b (mem_of_mem_reduce hm)
          · exact le_trans (lines_length_reduce_le _ _) h3
        · have hit : guess_iteration sup st p =
              .error (e, { st with run_arguments := st.run_arguments ++ [p.args] }) := by
            simp [guess_iteration, hout, if_neg hk]
          rw [hit]
          exact ⟨h1, h2, h3⟩

/-- C3: along any `guess()` run — whatever the stop-condition configuration,
suppression set and schedule — the tracer's scope is never mutated, the
missed-lines structure stays within the scope (so
`covered_count + missed_count = total_scope_count` with
`covered = total − missed`), and each completed run's `reduce_lines` update
makes the missed-location count non-increasing. -/
theorem c3_coverage_monotonic (sc : Nat) (cl : WithTop Nat) (tmo : ℚ)
    (sup : List String) (scope : Lines α β) (store : GuesserStore α β)
    (plans : List (IterationPlan α β)) :
    ((loop_final_state (guess_loop sc cl tmo sup (guess_init scope store) plans)).scope
        = scope ∧
     (∀ k b, mem_lines k b
        (loop_final_state (guess_loop sc cl tmo sup (guess_init scope store)
          plans)).missed_lines → mem_lines k b scope) ∧
     (lines_length scope -
        lines_length (loop_final_state (guess_loop sc cl tmo sup (guess_init scope store)
          plans)).missed_lines) +
        lines_length (loop_final_state (guess_loop sc cl tmo sup (guess_init scope store)
          plans)).missed_lines = lines_length scope) ∧
    (∀ (st : GuesserState α β) (p : IterationPlan α β),
      lines_length (loop_final_state (guess_iteration sup st p)).missed_lines ≤
        lines_length st.missed_lines ∧
      (loop_final_state (guess_iteration sup st p)).scope = st.scope) := by
  constructor
  · obtain ⟨h1, h2, h3⟩ := guess_loop_state_inv sc cl tmo sup scope plans
      (guess_init scope store) rfl (fun k b hm => hm) (le_refl _)
    exact ⟨h1, h2, by omega⟩
  · intro st p
    cases hout : p.outcome with
    | inl v =>
      have hit : guess_iteration sup st p =
          .ok (record_run { st with run_arguments := st.run_arguments ++ [p.args] }
            p.lines v) := by
        simp [guess_iteration, hout]
      rw [hit]
      exact ⟨lines_length_reduce_le _ _, rfl⟩
    | inr e =>
      by_cases hk : e.kind ∈ sup
      · have hit : guess_iteration sup st p =
            .ok (record_run { st with run_arguments := st.run_arguments ++ [p.args] }
              p.lines (.excInstance e)) := by
          simp [guess_iteration, hout, if_pos hk]
        rw [hit]
        exact ⟨lines_length_reduce_le _ _, rfl⟩
      · have hit : guess_iteration sup st p =
            .error (e, { st with run_arguments := st.run_arguments ++ [p.args] }) := by
          simp [guess_iteration, hout, if_neg hk]
        rw [hit]
        exact ⟨le_refl _, rfl⟩

/-- C6: when the reached iteration's call raises `e` and no stop condition
fired at the pre-iteration check: if `e`'s type matches the suppression set
the exception becomes the run's recorded outcome (stored under the current
run id) and the loop goes on with the remaining schedule; otherwise the loop
evaluates to the propagating exception at once — the remaining schedule is
never consulted — and the recorded runs are exactly those recorded before
the aborting call. -/
theorem c6_exception_suppression (sc : Nat) (cl : WithTop Nat) (tmo : ℚ)
    (suppress : List String) (st : GuesserState α β) (p : IterationPlan α β)
    (rest : List (IterationPlan α β)) (e : PyExc)
    (hout : p.outcome = .inr e)
    (hstop : check_stop_conditions sc st.call_count cl p.elapsed tmo
      st.runs_with_results st.missed_lines = false) :
    (e.kind ∈ suppress →
      guess_loop sc cl tmo suppress st (p :: rest) =
        guess_loop sc cl tmo suppress
          (record_run { st with run_arguments := st.run_arguments ++ [p.args] }
            p.lines (.excInstance e)) rest ∧
      dict_find st.call_count
        (record_run { st with run_arguments := st.run_arguments ++ [p.args] }
          p.lines (.excInstance e)).runs_with_results = some (p.lines, .excInstance e)) ∧
    (e.kind ∉ suppress →
      guess_loop sc cl tmo suppress st (p :: rest) =
        .error (e, { st with run_arguments := st.run_arguments ++ [p.args] }) ∧
      (loop_final_state (guess_loop sc cl tmo suppress st (p :: rest))).runs_with_results =
        st.runs_with_results) := by
  have hul : guess_loop sc cl tmo suppress st (p :: rest) =
      if check_stop_conditions sc st.call_count cl p.elapsed tmo
          st.runs_with_results st.missed_lines
      then .ok st
      else match guess_iteration suppress st p with
        | .ok st' => guess_loop sc cl tmo suppress st' rest
        | .error es => .error es := rfl
  have hcf : ¬ (check_stop_conditions sc st.call_count cl p.elapsed tmo
      st.runs_with_results st.missed_lines = true) := by
    rw [hstop]
    exact Bool.false_ne_true
  constructor
  · intro hk
    have hit : guess_iteration suppress st p =
        .ok (record_run { st with run_arguments := st.run_arguments ++ [p.args] }
          p.lines (.excInstance e)) := by
      simp [guess_iteration, hout, if_pos hk]
    constructor
    · rw [hul, if_neg hcf, hit]
    · exact dict_find_insert_self _ _ _
  · intro hk
    have hit : guess_iteration suppress st p =
        .error (e, { st with run_arguments := st.run_arguments ++ [p.args] }) := by
      simp [guess_iteration, hout, if_neg hk]
    have hres : guess_loop sc cl tmo suppress st (p :: rest) =
        .error (e, { st with run_arguments := st.run_arguments ++ [p.args] }) := by
      rw [hul, if_neg hcf, hit]
    exact ⟨hres, by rw [hres]; rfl⟩

/-- Witness for `c6_exception_suppression` at a concrete state: the default
stop conditions with no limit reached, a raised `ValueError`, suppression set
`["ValueError"]` for the first conjunct and (vacuously instantiable) the
same theorem also covers the non-suppressed case. -/
theorem c6_exception_suppression_witness :
    ((⟨5, [((0 : Nat), ({1} : Finset Nat))], .inr ⟨"ValueError"⟩, 0⟩ :
        IterationPlan Nat Nat).outcome = .inr ⟨"ValueError"⟩ ∧
      check_stop_conditions 7 (guess_init [((0 : Nat), ({1} : Finset Nat))]
          (⟨[], []⟩ : GuesserStore Nat Nat)).call_count (⊤ : WithTop Nat)
        ((⟨5, [((0 : Nat), ({1} : Finset Nat))], .inr ⟨"ValueError"⟩, 0⟩ :
          IterationPlan Nat Nat).elapsed) 10
        (guess_init [((0 : Nat), ({1} : Finset Nat))]
          (⟨[], []⟩ : GuesserStore Nat Nat)).runs_with_results
        (guess_init [((0 : Nat), ({1} : Finset Nat))]
          (⟨[], []⟩ : GuesserStore Nat Nat)).missed_lines = false) ∧
    ((PyExc.mk ("ValueError")).kind ∈ (["ValueError"] : List String) →
      guess_loop 7 (⊤ : WithTop Nat) 10 ["ValueError"]
          (guess_init [((0 : Nat), ({1} : Finset Nat))] ⟨[], []⟩)
          ([⟨5, [((0 : Nat), ({1} : Finset Nat))], .inr ⟨"ValueError"⟩, 0⟩] :
            List (IterationPlan Nat Nat)) =
        guess_loop 7 (⊤ : WithTop Nat) 10 ["ValueError"]
          (record_run { guess_init [((0 : Nat), ({1} : Finset Nat))]
              (⟨[], []⟩ : GuesserStore Nat Nat) with
            run_arguments := (guess_init [((0 : Nat), ({1} : Finset Nat))]
              (⟨[], []⟩ : GuesserStore Nat Nat)).run_arguments ++ [5] }
            [((0 : Nat), ({1} : Finset Nat))] (.excInstance ⟨"ValueError"⟩)) [] ∧
      dict_find (guess_init [((0 : Nat), ({1} : Finset Nat))]
          (⟨[], []⟩ : GuesserStore Nat Nat)).call_count
        (record_run { guess_init [((0 : Nat), ({1} : Finset Nat))]
            (⟨[], []⟩ : GuesserStore Nat Nat) with
          run_arguments := (guess_init [((0 : Nat), ({1} : Finset Nat))]
            (⟨[], []⟩ : GuesserStore Nat Nat)).run_arguments ++ [5] }
          [((0 : Nat), ({1} : Finset Nat))]
          (.excInstance ⟨"ValueError"⟩)).runs_with_results =
        some ([((0 : Nat), ({1} : Finset Nat))], .excInstance ⟨"ValueError"⟩)) ∧
    ((PyExc.mk ("ValueError")).kind ∉ ([] : List String) →
      guess_loop 7 (⊤ : WithTop Nat) 10 []
          (guess_init [((0 : Nat), ({1} : Finset Nat))] ⟨[], []⟩)
          ([⟨5, [((0 : Nat), ({1} : Finset Nat))], .inr ⟨"ValueError"⟩, 0⟩] :
            List (IterationPlan Nat Nat)) =
        .error (⟨"ValueError"⟩, { guess_init [((0 : Nat), ({1} : Finset Nat))]
            (⟨[], []⟩ : GuesserStore Nat Nat) with
          run_arguments := (guess_init [((0 : Nat), ({1} : Finset Nat))]
            (⟨[], []⟩ : GuesserStore Nat Nat)).run_arguments ++ [5] }) ∧
      (loop_final_state (guess_loop 7 (⊤ : WithTop Nat) 10 []
          (guess_init [((0 : Nat), ({1} : Finset Nat))] ⟨[], []⟩)
          ([⟨5, [((0 : Nat), ({1} : Finset Nat))], .inr ⟨"ValueError"⟩, 0⟩] :
            List (IterationPlan Nat Nat)))).runs_with_results =
        (guess_init [((0 : Nat), ({1} : Finset Nat))]
          (⟨[], []⟩ : GuesserStore Nat Nat)).runs_with_results) :=
  ⟨⟨rfl, by decide⟩,
    (c6_exception_suppression 7 (⊤ : WithTop Nat) 10 ["ValueError"]
      (guess_init [((0 : Nat), ({1} : Finset Nat))] ⟨[], []⟩)
      ⟨5, [((0 : Nat), ({1} : Finset Nat))], .inr ⟨"ValueError"⟩, 0⟩ [] ⟨"ValueError"⟩
      rfl (by decide)).1,
    (c6_exception_suppression 7 (⊤ : WithTop Nat) 10 []
      (guess_init [((0 : Nat), ({1} : Finset Nat))] ⟨[], []⟩)
      ⟨5, [((0 : Nat), ({1} : Finset Nat))], .inr ⟨"ValueError"⟩, 0⟩ [] ⟨"ValueError"⟩
      rfl (by decide)).2⟩

/-- `Guesser.exceptions` (guess.py lines 294-295): the runs aggregated as
exceptions are exactly those whose stored outcome is an `Exception`
instance. -/
def exception_runs {α β : Type} (runs : List (Nat × (Lines α β × PyObject))) :
    List (Nat × (Lines α β × PyObject)) :=
  runs.filter fun r => is_exception_instance r.2.2

/-- `Guesser.return_values` (guess.py lines 330-332): the runs aggregated as
return values are exactly those whose stored outcome is not an `Exception`
instance. -/
def return_runs {α β : Type} (runs : List (Nat × (Lines α β × PyObject))) :
    List (Nat × (Lines α β × PyObject)) :=
  runs.filter fun r => !is_exception_instance r.2.2

/-- C10: classification into the exception/return-value aggregations is
decided solely by `isinstance(outcome, Exception)`; in particular a run
whose call returned an `Exception` instance normally is recorded with that
instance as its outcome, lands in the exception aggregation and is excluded
from the return-value aggregation, exactly as if it had been raised. -/
theorem c10_returned_exception_grouped (suppress : List String)
    (st : GuesserState α β) (p : IterationPlan α β) (v : PyObject)
    (hout : p.outcome = .inl v) (hexc : is_exception_instance v = true) :
    ∃ st', guess_iteration suppress st p = .ok st' ∧
      (st.call_count, (p.lines, v)) ∈ st'.runs_with_results ∧
      (st.call_count, (p.lines, v)) ∈ exception_runs st'.runs_with_results ∧
      (st.call_count, (p.lines, v)) ∉ return_runs st'.runs_with_results ∧
      (∀ (runs : List (Nat × (Lines α β × PyObject)))
          (r : Nat × (Lines α β × PyObject)), r ∈ runs →
        ((r ∈ exception_runs runs ↔ is_exception_instance r.2.2 = true) ∧
         (r ∈ return_runs runs ↔ is_exception_instance r.2.2 = false))) := by
  refine ⟨record_run { st with run_arguments := st.run_arguments ++ [p.args] } p.lines v,
    by simp [guess_iteration, hout], ?_, ?_, ?_, ?_⟩
  · exact mem_dict_insert_self _ _ _
  · exact List.mem_filter.mpr ⟨mem_dict_insert_self _ _ _, hexc⟩
  · intro hmem
    have := (List.mem_filter.mp hmem).2
    rw [hexc] at this
    exact absurd this (by simp)
  · intro runs r hr
    constructor
    · constructor
      · intro hm
        exact (List.mem_filter.mp hm).2
      · intro hm
        exact List.mem_filter.mpr ⟨hr, hm⟩
    · constructor
      · intro hm
        have := (List.mem_filter.mp hm).2
        cases hh : is_exception_instance r.2.2
        · rfl
        · rw [hh] at this; exact absurd this (by simp)
      · intro hm
        refine List.mem_filter.mpr ⟨hr, ?_⟩
        rw [hm]
        rfl

/-- Witness for `c10_returned_exception_grouped`: a call that returns the
`Exception` instance `KeyError` without raising it. -/
theorem c10_returned_exception_grouped_witness :
    ((⟨3, [((0 : Nat), ({1} : Finset Nat))], .inl (.excInstance ⟨"KeyError"⟩), 0⟩ :
        IterationPlan Nat Nat).outcome = .inl (.excInstance ⟨"KeyError"⟩) ∧
      is_exception_instance (.excInstance ⟨"KeyError"⟩) = true) ∧
    (∃ st', guess_iteration [] (guess_init [((0 : Nat), ({1} : Finset Nat))]
        (⟨[], []⟩ : GuesserStore Nat Nat))
        ⟨3, [((0 : Nat), ({1} : Finset Nat))], .inl (.excInstance ⟨"KeyError"⟩), 0⟩ =
        .ok st' ∧
      ((guess_init [((0 : Nat), ({1} : Finset Nat))]
          (⟨[], []⟩ : GuesserStore Nat Nat)).call_count,
        ([((0 : Nat), ({1} : Finset Nat))], PyObject.excInstance ⟨"KeyError"⟩)) ∈
          st'.runs_with_results ∧
      ((guess_init [((0 : Nat), ({1} : Finset Nat))]
          (⟨[], []⟩ : GuesserStore Nat Nat)).call_count,
        ([((0 : Nat), ({1} : Finset Nat))], PyObject.excInstance ⟨"KeyError"⟩)) ∈
          exception_runs st'.runs_with_results ∧
      ((guess_init [((0 : Nat), ({1} : Finset Nat))]
          (⟨[], []⟩ : GuesserStore Nat Nat)).call_count,
        ([((0 : Nat), ({1} : Finset Nat))], PyObject.excInstance ⟨"KeyError"⟩)) ∉
          return_runs st'.runs_with_results ∧
      (∀ (runs : List (Nat × (Lines Nat Nat × PyObject)))
          (r : Nat × (Lines Nat Nat × PyObject)), r ∈ runs →
        ((r ∈ exception_runs runs ↔ is_exception_instance r.2.2 = true) ∧
         (r ∈ return_runs runs ↔ is_exception_instance r.2.2 = false)))) :=
  ⟨⟨rfl, rfl⟩, c10_returned_exception_grouped [] _ _ _ rfl rfl⟩

/-- C7 fails on the code: `guess()` resets `run_arguments` and the tracer's
run dictionary, but never clears `self.__runs_with_results`; its entries are
only overwritten per run id.  After a first invocation recording runs 0 and
1 and a second invocation recording only run 0, the stored dictionary still
holds run id 1 with the first invocation's lines and outcome (while
`run_arguments` holds only the second invocation's single tuple) — so not
every stored run belongs to the second invocation. -/
theorem c7_stale_runs_survive :
    ((1, ([((0 : Nat), ({2} : Finset Nat))], PyObject.value 101)) ∈
      (run_result_store (guess_run 7 (⊤ : WithTop Nat) 10 []
        [((0 : Nat), ({1, 2, 3} : Finset Nat))]
        (run_result_store (guess_run 7 (⊤ : WithTop Nat) 10 []
          [((0 : Nat), ({1, 2, 3} : Finset Nat))] ⟨[], []⟩
          [⟨10, [(0, ({1} : Finset Nat))], .inl (.value 100), 0⟩,
           ⟨11, [(0, ({2} : Finset Nat))], .inl (.value 101), 0⟩]))
        [⟨12, [(0, ({3} : Finset Nat))], .inl (.value 200), 0⟩])).runs_with_results) ∧
    (run_result_store (guess_run 7 (⊤ : WithTop Nat) 10 []
        [((0 : Nat), ({1, 2, 3} : Finset Nat))]
        (run_result_store (guess_run 7 (⊤ : WithTop Nat) 10 []
          [((0 : Nat), ({1, 2, 3} : Finset Nat))] ⟨[], []⟩
          [⟨10, [(0, ({1} : Finset Nat))], .inl (.value 100), 0⟩,
           ⟨11, [(0, ({2} : Finset Nat))], .inl (.value 101), 0⟩]))
        [⟨12, [(0, ({3} : Finset Nat))], .inl (.value 200), 0⟩])).run_arguments = [12] ∧
    (run_result_store (guess_run 7 (⊤ : WithTop Nat) 10 []
        [((0 : Nat), ({1, 2, 3} : Finset Nat))]
        (run_result_store (guess_run 7 (⊤ : WithTop Nat) 10 []
          [((0 : Nat), ({1, 2, 3} : Finset Nat))] ⟨[], []⟩
          [⟨10, [(0, ({1} : Finset Nat))], .inl (.value 100), 0⟩,
           ⟨11, [(0, ({2} : Finset Nat))], .inl (.value 101), 0⟩]))
        [⟨12, [(0, ({3} : Finset Nat))], .inl (.value 200), 0⟩])).runs_with_results.length
      = 2 := by
  decide

/-! ### Argument preparation (guess.py line 179) under CPython call semantics -/

/-- An object in the argument list of the `tuple(...)` call on guess.py line
179: a `Generator` combinator instance (an entry of
`ParametersGenerators.positional`; the class defines `__call__` but neither
`__iter__` nor `__getitem__`, so it is not iterable), or a generated value,
or a generator expression (`IterableGenerator.__call__` returns one, which
is iterable). -/
inductive PyArgObject
  | generatorObj (id : Nat)
  | strValue (s : String)
  | scalarValue (tag : Nat)
  | genexpr (elems : List Nat)
deriving DecidableEq

/-- CPython `iter(x)`: strings and generator expressions iterate; `Generator`
combinator instances and non-sequence values raise
`TypeError: object is not iterable`. -/
def py_iterate : PyArgObject → Option (List PyArgObject)
  | .generatorObj _ => none
  | .strValue s => some (s.toList.map fun c => .strValue (String.mk [c]))
  | .scalarValue _ => none
  | .genexpr elems => some (elems.map .scalarValue)

inductive PyCallError
  | tupleArity
  | notIterable
deriving DecidableEq

/-- CPython `tuple(a₁, ..., aₙ)`: the empty tuple for no argument, the tuple
of the single argument's iteration for one, and
`TypeError: tuple expected at most 1 argument` for two or more. -/
def py_tuple_call : List PyArgObject → Except PyCallError (List PyArgObject)
  | [] => .ok []
  | [x] =>
    match py_iterate x with
    | some xs => .ok xs
    | none => .error .notIterable
  | _ => .error .tupleArity

/-- guess.py line 179:
`args = tuple(*positional, *var_positional())`.
The starred `positional` unpacks the positional generator objects themselves
— they are never invoked — as separate arguments of `tuple`, and the starred
generator expression returned by `var_positional()` unpacks the generated
variable-positional values after them. -/
def prepare_args (positional : List Nat) (var_positional_values : List Nat) :
    Except PyCallError (List PyArgObject) :=
  py_tuple_call (positional.map .generatorObj ++ var_positional_values.map .scalarValue)

/-- C2 fails on the code: for every non-empty positional generator sequence,
building `args` raises a `TypeError` (arity error as soon as the total
argument count reaches two, non-iterability of the lone `Generator` object
otherwise), so no positional value is ever generated and the target is never
invoked with generated positional arguments. -/
theorem c2_positional_args_type_error (positional var_pos : List Nat)
    (hpos : positional ≠ []) :
    ∃ e, prepare_args positional var_pos = .error e := by
  cases positional with
  | nil => exact absurd rfl hpos
  | cons g gs =>
    cases gs with
    | cons g2 gs2 => exact ⟨.tupleArity, rfl⟩
    | nil =>
      cases var_pos with
      | nil => exact ⟨.notIterable, rfl⟩
      | cons v vs => exact ⟨.tupleArity, rfl⟩

/-- Witness for `c2_positional_args_type_error`: one positional generator, no
variable-positional values — `tuple(generator_object)` raises
`TypeError: object is not iterable`. -/
theorem c2_positional_args_type_error_witness :
    ([0] ≠ ([] : List Nat)) ∧ ∃ e, prepare_args [0] [] = .error e :=
  ⟨by decide, c2_positional_args_type_error [0] [] (by decide)⟩

/-! ### Container generator calls (generators/concrete_generators.py) -/

/-- `random.randint(a, b)` (both ends inclusive), driven by an oracle draw:
faithful for `a ≤ b`, every result lies in `[a, b]`. -/
def py_randint (a b r : Nat) : Nat := a + r % (b - a + 1)

/-- Pop the next oracle value (0 when exhausted). -/
def take_choice : List Nat → Nat × List Nat
  | [] => (0, [])
  | n :: rest => (n, rest)

/-- `n` successive invocations of a sub generator, threading the oracle. -/
def gen_values {E : Type} (sub : List Nat → E × List Nat) :
    Nat → List Nat → List E × List Nat
  | 0, o => ([], o)
  | n + 1, o =>
    let (v, o') := sub o
    let (vs, o'') := gen_values sub n o'
    (v :: vs, o'')

/-- `IterableGenerator.__call__` (concrete_generators.py lines 52-53): the
sub generator invoked `random.randint(min_length, max_length)` times.  `sub`
embeds `self._sub_generator.__call__`. -/
def iterable_generator_call {E : Type} (sub : List Nat → E × List Nat)
    (min_length max_length : Nat) (o : List Nat) : List E × List Nat :=
  let (r, o') := take_choice o
  gen_values sub (py_randint min_length max_length r) o'

/-- `ListGenerator.__call__` (lines 71-72): `list(super().__call__())`. -/
def list_generator_call {E : Type} (sub : List Nat → E × List Nat)
    (min_length max_length : Nat) (o : List Nat) : List E × List Nat :=
  iterable_generator_call sub min_length max_length o

/-- `TupleEllipsisGenerator.__call__` (lines 158-159):
`tuple(super().__call__())`. -/
def tuple_ellipsis_generator_call {E : Type} (sub : List Nat → E × List Nat)
    (min_length max_length : Nat) (o : List Nat) : List E × List Nat :=
  iterable_generator_call sub min_length max_length o

/-- `SetGenerator.__call__` (lines 104-105): `set(super().__call__())` —
duplicates collapse; the set is modelled by the deduplicated value list (its
length is the set's cardinality). -/
def set_generator_call {E : Type} [DecidableEq E] (sub : List Nat → E × List Nat)
    (min_length max_length : Nat) (o : List Nat) : List E × List Nat :=
  let (vs, o') := iterable_generator_call sub min_length max_length o
  (vs.dedup, o')

/-- `FrozenSetGenerator.__call__` (lines 123-124):
`frozenset(super().__call__())`. -/
def frozen_set_generator_call {E : Type} [DecidableEq E]
    (sub : List Nat → E × List Nat) (min_length max_length : Nat) (o : List Nat) :
    List E × List Nat :=
  set_generator_call sub min_length max_length o

/-- `n` key/value generation rounds of the dict comprehension, key before
value in each round. -/
def gen_pairs {K V : Type} (kg : List Nat → K × List Nat)
    (vg : List Nat → V × List Nat) : Nat → List Nat → List (K × V) × List Nat
  | 0, o => ([], o)
  | n + 1, o =>
    let (k, o') := kg o
    let (v, o'') := vg o'
    let (ps, o3) := gen_pairs kg vg n o''
    ((k, v) :: ps, o3)

/-- Python dict assignment for arbitrary key types (the dict comprehension
keeps the last value of a duplicated key, in first-insertion position). -/
def py_dict_insert {K V : Type} [DecidableEq K] (k : K) (v : V) :
    List (K × V) → List (K × V)
  | [] => [(k, v)]
  | p :: rest => if p.1 = k then (k, v) :: rest else p :: py_dict_insert k v rest

/-- `DictGenerator.__call__` (concrete_generators.py lines 204-206):
`{keys_generator(): values_generator() for _ in range(randint(min, max))}`. -/
def dict_generator_call {K V : Type} [DecidableEq K]
    (kg : List Nat → K × List Nat) (vg : List Nat → V × List Nat)
    (min_length max_length : Nat) (o : List Nat) : List (K × V) × List Nat :=
  let (r, o') := take_choice o
  let (ps, o'') := gen_pairs kg vg (py_randint min_length max_length r) o'
  (ps.foldl (fun d p => py_dict_insert p.1 p.2 d) [], o'')

/-- `NoneGenerator.__call__` (final_concrete_generators.py lines 289-290):
always the single value `None`. -/
def none_generator_call : List Nat → Unit × List Nat := fun o => ((), o)

theorem py_randint_le {a b r : Nat} (h : a ≤ b) :
    a ≤ py_randint a b r ∧ py_randint a b r ≤ b := by
  unfold py_randint
  have hm : r % (b - a + 1) < b - a + 1 := Nat.mod_lt _ (Nat.succ_pos _)
  omega

theorem gen_values_length {E : Type} (sub : List Nat → E × List Nat) :
    ∀ (n : Nat) (o : List Nat), (gen_values sub n o).1.length = n := by
  intro n
  induction n with
  | zero => intro o; rfl
  | succ n ih =>
    intro o
    show ((sub o).1 :: (gen_values sub n (sub o).2).1, _).1.length = n + 1
    simp [ih]

theorem gen_pairs_length {K V : Type} (kg : List Nat → K × List Nat)
    (vg : List Nat → V × List Nat) :
    ∀ (n : Nat) (o : List Nat), (gen_pairs kg vg n o).1.length = n := by
  intro n
  induction n with
  | zero => intro o; rfl
  | succ n ih =>
    intro o
    show ((((kg o).1, (vg (kg o).2).1) ::
      (gen_pairs kg vg n (vg (kg o).2).2).1).length) = n + 1
    simp [ih]

theorem py_dict_insert_length_le {K V : Type} [DecidableEq K] (k : K) (v : V)
    (d : List (K × V)) : (py_dict_insert k v d).length ≤ d.length + 1 := by
  induction d with
  | nil => simp [py_dict_insert]
  | cons p rest ih =>
    by_cases hp : p.1 = k
    · simp [py_dict_insert, hp]
    · simp only [py_dict_insert, if_neg hp, List.length_cons]
      omega

theorem dict_build_length_le {K V : Type} [DecidableEq K] :
    ∀ (ps : List (K × V)) (d : List (K × V)),
      (ps.foldl (fun d p => py_dict_insert p.1 p.2 d) d).length ≤ d.length + ps.length := by
  intro ps
  induction ps with
  | nil => intro d; simp
  | cons p rest ih =>
    intro d
    calc (List.foldl (fun d p => py_dict_insert p.1 p.2 d) (py_dict_insert p.1 p.2 d) rest).length
        ≤ (py_dict_insert p.1 p.2 d).length + rest.length := ih _
      _ ≤ (d.length + 1) + rest.length := by
          have := py_dict_insert_length_le p.1 p.2 d
          omega
      _ = d.length + (p :: rest).length := by simp; omega

/-- C8 (amended): with `min_length ≤ max_length`, every produced list and
ellipsis-tuple (and the underlying iterable) has between `min_length` and
`max_length` elements inclusive; produced sets, frozen sets and mappings
have at most `max_length` elements, but may fall below `min_length` because
duplicate elements (resp. keys) collapse. -/
theorem c8_container_length_bounds {E K V : Type} [DecidableEq E] [DecidableEq K]
    (sub : List Nat → E × List Nat) (kg : List Nat → K × List Nat)
    (vg : List Nat → V × List Nat) (min_length max_length : Nat) (o : List Nat)
    (h : min_length ≤ max_length) :
    (min_length ≤ (iterable_generator_call sub min_length max_length o).1.length ∧
      (iterable_generator_call sub min_length max_length o).1.length ≤ max_length) ∧
    (min_length ≤ (list_generator_call sub min_length max_length o).1.length ∧
      (list_generator_call sub min_length max_length o).1.length ≤ max_length) ∧
    (min_length ≤ (tuple_ellipsis_generator_call sub min_length max_length o).1.length ∧
      (tuple_ellipsis_generator_call sub min_length max_length o).1.length ≤ max_length) ∧
    ((set_generator_call sub min_length max_length o).1.length ≤ max_length) ∧
    ((frozen_set_generator_call sub min_length max_length o).1.length ≤ max_length) ∧
    ((dict_generator_call kg vg min_length max_length o).1.length ≤ max_length) := by
  obtain ⟨h1, h2⟩ := py_randint_le (r := (take_choice o).1) h
  have hlen : (iterable_generator_call sub min_length max_length o).1.length =
      py_randint min_length max_length (take_choice o).1 := by
    unfold iterable_generator_call
    exact gen_values_length sub _ _
  have hiter : min_length ≤ (iterable_generator_call sub min_length max_length o).1.length ∧
      (iterable_generator_call sub min_length max_length o).1.length ≤ max_length := by
    rw [hlen]
    exact ⟨h1, h2⟩
  refine ⟨hiter, hiter, hiter, ?_, ?_, ?_⟩
  · have hd : (set_generator_call sub min_length max_length o).1.length ≤
        (iterable_generator_call sub min_length max_length o).1.length := by
      unfold set_generator_call
      exact (List.dedup_sublist _).length_le
    omega
  · have hd : (frozen_set_generator_call sub min_length max_length o).1.length ≤
        (iterable_generator_call sub min_length max_length o).1.length := by
      unfold frozen_set_generator_call set_generator_call
      exact (List.dedup_sublist _).length_le
    omega
  · have hgoal : (dict_generator_call kg vg min_length max_length o).1 =
        ((gen_pairs kg vg (py_randint min_length max_length (take_choice o).1)
          (take_choice o).2).1).foldl (fun d p => py_dict_insert p.1 p.2 d) [] := rfl
    rw [hgoal]
    have hp := gen_pairs_length kg vg
      (py_randint min_length max_length (take_choice o).1) ((take_choice o).2)
    have hb := dict_build_length_le (K := K) (V := V)
      (gen_pairs kg vg (py_randint min_length max_length (take_choice o).1)
        (take_choice o).2).1 []
    simp only [List.length_nil, Nat.zero_add] at hb
    omega

/-- Witness for `c8_container_length_bounds` at `min = max = 2` over an
integer sub generator. -/
theorem c8_container_length_bounds_witness :
    (2 ≤ 2) ∧
    ((2 ≤ (iterable_generator_call take_choice 2 2 [0]).1.length ∧
      (iterable_generator_call take_choice 2 2 [0]).1.length ≤ 2) ∧
    (2 ≤ (list_generator_call take_choice 2 2 [0]).1.length ∧
      (list_generator_call take_choice 2 2 [0]).1.length ≤ 2) ∧
    (2 ≤ (tuple_ellipsis_generator_call take_choice 2 2 [0]).1.length ∧
      (tuple_ellipsis_generator_call take_choice 2 2 [0]).1.length ≤ 2) ∧
    ((set_generator_call take_choice 2 2 [0]).1.length ≤ 2) ∧
    ((frozen_set_generator_call take_choice 2 2 [0]).1.length ≤ 2) ∧
    ((dict_generator_call take_choice take_choice 2 2 [0]).1.length ≤ 2)) :=
  ⟨by decide, c8_container_length_bounds take_choice take_choice take_choice 2 2 [0]
    (by decide)⟩

/-- C8 counterexample to the claim as stated: a set generator with
`min_length = max_length = 2` over `NoneGenerator` draws `None` twice; the
produced set has a single element, below `min_length`. -/
theorem c8_set_below_min_counterexample :
    (set_generator_call none_generator_call 2 2 [0]).1.length = 1 ∧
    ¬ (2 ≤ (set_generator_call none_generator_call 2 2 [0]).1.length) := by
  decide

/-! ### Union/Optional specification handling
(generators/typing_generators.py lines 90-118 and 147-175) -/

/-- The typing tokens the union/optional candidates inspect: scalar
annotations, `NoneType`, `object`/`Any`, `typing.Hashable`, a parametrized
`Union[...]` and the bare `typing.Optional` token. -/
inductive TypTok
  | tInt
  | tStr
  | tNoneType
  | tObject
  | tAny
  | tHashable
  | tUnion (args : List TypTok)
  | tOptionalBare

/-- `typing.get_origin(annotation) or annotation`, as in
`TypeSpecification.get_origin`. -/
inductive TypOrigin
  | oInt | oStr | oNoneType | oObject | oAny | oHashable | oUnion | oOptional
deriving DecidableEq

def get_origin : TypTok → TypOrigin
  | .tInt => .oInt
  | .tStr => .oStr
  | .tNoneType => .oNoneType
  | .tObject => .oObject
  | .tAny => .oAny
  | .tHashable => .oHashable
  | .tUnion _ => .oUnion
  | .tOptionalBare => .oOptional

def get_args : TypTok → List TypTok
  | .tUnion args => args
  | _ => []

/-- `arg is NoneType` (membership tests against `{None, NoneType}`). -/
def is_none_type : TypTok → Bool
  | .tNoneType => true
  | _ => false

/-- `TypeSpecification.is_any`: origin in `{object, ..., Any}`. -/
def spec_is_any (t : TypTok) : Bool :=
  match get_origin t with
  | .oObject => true
  | .oAny => true
  | _ => false

/-- A `TypeSpecification` as the resolver passes it to
`handle_specification`: a single accepted token plus qualifier and
disqualifier string sets. -/
structure TypeSpecLite where
  accepted : TypTok
  qualifiers : Finset String
  disqualifiers : Finset String

/-- `requires_hashable_explicitly` (generators/_concrete_generator.py lines
13-15). -/
def requires_hashable_explicitly (spec : TypeSpecLite) : Bool :=
  (match get_origin spec.accepted with | .oHashable => true | _ => false) ||
    decide ("hashable" ∈ spec.qualifiers)

/-- `handle_qualifiers_by_typing` (generators/_concrete_generator.py lines
18-22). -/
def handle_qualifiers_by_typing (spec : TypeSpecLite) : Finset String :=
  if requires_hashable_explicitly spec then insert ("hashable") spec.qualifiers
  else spec.qualifiers

/-- The part of `RequiresSpecification` the nesting claims are about: the
sub-specifications to resolve (`true` marks a counted/packed requirement,
the `(random.randint(2, 16), spec)` form). -/
structure RequiresLite where
  to_resolve : List (Bool × TypeSpecLite)

/-- `UnionGenerator.handle_specification` (typing_generators.py lines
90-118). -/
def union_handle (spec : TypeSpecLite) : Option RequiresLite :=
  if ¬ (get_origin spec.accepted = .oUnion) ∧ ¬ (spec_is_any spec.accepted = true)
  then none
  else
    let args := get_args spec.accepted
    if args.any is_none_type then none
    else
      let qualifiers := handle_qualifiers_by_typing spec
      if (qualifiers.erase "hashable").Nonempty then none
      else if "union" ∈ spec.disqualifiers then none
      else
        let dq := spec.disqualifiers ∪ {"union", "optional"}
        if args.isEmpty then
          some ⟨[(true, ⟨.tObject, qualifiers, dq⟩)]⟩
        else
          some ⟨args.map fun a => (false, ⟨a, qualifiers, dq⟩)⟩

/-- `OptionalGenerator.handle_specification` (typing_generators.py lines
147-175).  The `args[0]` read is total in Python because `typing` collapses
`Union[None]` to plain `NoneType`; the unreachable empty case defaults to
`object`. -/
def optional_handle (spec : TypeSpecLite) : Option RequiresLite :=
  if ¬ (get_origin spec.accepted = .oOptional) ∧ ¬ (get_origin spec.accepted = .oUnion) ∧
      ¬ (spec_is_any spec.accepted = true)
  then none
  else
    let args := get_args spec.accepted
    if ¬ args.isEmpty ∧ ¬ args.any is_none_type then none
    else
      let args := if args.isEmpty then [TypTok.tObject] else args
      let args := args.filter fun a => !is_none_type a
      let args := if args.length > 1 then [TypTok.tUnion args] else args
      let qualifiers := handle_qualifiers_by_typing spec
      if (qualifiers.erase "hashable").Nonempty then none
      else if "optional" ∈ spec.disqualifiers then none
      else
        let dq := spec.disqualifiers ∪ {"none", "optional"}
        some ⟨[(false, ⟨args.headD .tObject, qualifiers, dq⟩)]⟩

/-- C9: the union candidate refuses any specification already disqualifying
`union`, the optional candidate refuses any specification already
disqualifying `optional`, every sub-specification the union candidate emits
carries both the `union` and `optional` disqualifiers and every
sub-specification the optional candidate emits carries the `optional`
disqualifier — hence neither candidate matches a sub-specification of its
own kind: no union directly inside a union, no optional directly inside an
optional. -/
theorem c9_union_optional_nesting_guard :
    (∀ spec : TypeSpecLite, "union" ∈ spec.disqualifiers → union_handle spec = none) ∧
    (∀ spec : TypeSpecLite, "optional" ∈ spec.disqualifiers → optional_handle spec = none) ∧
    (∀ (spec : TypeSpecLite) (r : RequiresLite), union_handle spec = some r →
      ∀ q ∈ r.to_resolve, "union" ∈ q.2.disqualifiers ∧ "optional" ∈ q.2.disqualifiers ∧
        union_handle q.2 = none) ∧
    (∀ (spec : TypeSpecLite) (r : RequiresLite), optional_handle spec = some r →
      ∀ q ∈ r.to_resolve, "optional" ∈ q.2.disqualifiers ∧
        optional_handle q.2 = none) := by
  have hu_refuse : ∀ spec : TypeSpecLite, "union" ∈ spec.disqualifiers →
      union_handle spec = none := by
    intro spec hdq
    unfold union_handle
    by_cases h1 : ¬ (get_origin spec.accepted = .oUnion) ∧
        ¬ (spec_is_any spec.accepted = true)
    · rw [if_pos h1]
    · rw [if_neg h1]
      by_cases h2 : (get_args spec.accepted).any is_none_type
      · simp only [h2, if_true]
      · simp only [h2, Bool.false_eq_true, if_false]
        by_cases h3 : ((handle_qualifiers_by_typing spec).erase "hashable").Nonempty
        · rw [if_pos h3]
        · rw [if_neg h3, if_pos hdq]
  have ho_refuse : ∀ spec : TypeSpecLite, "optional" ∈ spec.disqualifiers →
      optional_handle spec = none := by
    intro spec hdq
    unfold optional_handle
    by_cases h1 : ¬ (get_origin spec.accepted = .oOptional) ∧
        ¬ (get_origin spec.accepted = .oUnion) ∧ ¬ (spec_is_any spec.accepted = true)
    · rw [if_pos h1]
    · rw [if_neg h1]
      by_cases h2 : ¬ (get_args spec.accepted).isEmpty ∧
          ¬ (get_args spec.accepted).any is_none_type
      · rw [if_pos h2]
      · rw [if_neg h2]
        by_cases h3 : ((handle_qualifiers_by_typing spec).erase "hashable").Nonempty
        · rw [if_pos h3]
        · rw [if_neg h3, if_pos hdq]
  have hu_emit : ∀ (spec : TypeSpecLite) (r : RequiresLite), union_handle spec = some r →
      ∀ q ∈ r.to_resolve, "union" ∈ q.2.disqualifiers ∧ "optional" ∈ q.2.disqualifiers := by
    intro spec r hr q hq
    unfold union_handle at hr
    by_cases h1 : ¬ (get_origin spec.accepted = .oUnion) ∧
        ¬ (spec_is_any spec.accepted = true)
    · rw [if_pos h1] at hr; exact absurd hr (by simp)
    · rw [if_neg h1] at hr
      by_cases h2 : (get_args spec.accepted).any is_none_type
      · simp only [h2, if_true] at hr; exact absurd hr (by simp)
      · simp only [h2, Bool.false_eq_true, if_false] at hr
        by_cases h3 : ((handle_qualifiers_by_typing spec).erase "hashable").Nonempty
        · rw [if_pos h3] at hr; exact absurd hr (by simp)
        · rw [if_neg h3] at hr
          by_cases h4 : "union" ∈ spec.disqualifiers
          · rw [if_pos h4] at hr; exact absurd hr (by simp)
          · rw [if_neg h4] at hr
            by_cases h5 : (get_args spec.accepted).isEmpty
            · rw [if_pos h5] at hr
              cases hr
              simp only [List.mem_singleton] at hq
              subst hq
              constructor
              · exact Finset.mem_union_right _ (by simp)
              · exact Finset.mem_union_right _ (by simp)
            · rw [if_neg h5] at hr
              cases hr
              simp only [List.mem_map] at hq
              obtain ⟨a, -, ha⟩ := hq
              subst ha
              constructor
              · exact Finset.mem_union_right _ (by simp)
              · exact Finset.mem_union_right _ (by simp)
  have ho_emit : ∀ (spec : TypeSpecLite) (r : RequiresLite), optional_handle spec = some r →
      ∀ q ∈ r.to_resolve, "optional" ∈ q.2.disqualifiers := by
    intro spec r hr q hq
    unfold optional_handle at hr
    by_cases h1 : ¬ (get_origin spec.accepted = .oOptional) ∧
        ¬ (get_origin spec.accepted = .oUnion) ∧ ¬ (spec_is_any spec.accepted = true)
    · rw [if_pos h1] at hr; exact absurd hr (by simp)
    · rw [if_neg h1] at hr
      by_cases h2 : ¬ (get_args spec.accepted).isEmpty ∧
          ¬ (get_args spec.accepted).any is_none_type
      · rw [if_pos h2] at hr; exact absurd hr (by simp)
      · rw [if_neg h2] at hr
        by_cases h3 : ((handle_qualifiers_by_typing spec).erase "hashable").Nonempty
        · rw [if_pos h3] at hr; exact absurd hr (by simp)
        · rw [if_neg h3] at hr
          by_cases h4 : "optional" ∈ spec.disqualifiers
          · rw [if_pos h4] at hr; exact absurd hr (by simp)
          · rw [if_neg h4] at hr
            cases hr
            simp only [List.mem_singleton] at hq
            subst hq
            exact Finset.mem_union_right _ (by simp)
  refine ⟨hu_refuse, ho_refuse, fun spec r hr q hq => ?_, fun spec r hr q hq => ?_⟩
  · obtain ⟨hqu, hqo⟩ := hu_emit spec r hr q hq
    exact ⟨hqu, hqo, hu_refuse q.2 hqu⟩
  · have hqo := ho_emit spec r hr q hq
    exact ⟨hqo, ho_refuse q.2 hqo⟩

/-- Witness for `c9_union_optional_nesting_guard`: a disqualified
specification is refused by each candidate, and the sub-specifications
emitted for `Union[int, str]` and `Optional`-shaped `Union[int, NoneType]`
all refuse further nesting of their own kind. -/
theorem c9_union_optional_nesting_guard_witness :
    (union_handle ⟨.tInt, ∅, {"union"}⟩ = none) ∧
    (optional_handle ⟨.tInt, ∅, {"optional"}⟩ = none) ∧
    (∃ r, union_handle ⟨.tUnion [.tInt, .tStr], ∅, ∅⟩ = some r ∧
      ∀ q ∈ r.to_resolve, "union" ∈ q.2.disqualifiers ∧ "optional" ∈ q.2.disqualifiers ∧
        union_handle q.2 = none) ∧
    (∃ r, optional_handle ⟨.tUnion [.tInt, .tNoneType], ∅, ∅⟩ = some r ∧
      ∀ q ∈ r.to_resolve, "optional" ∈ q.2.disqualifiers ∧
        optional_handle q.2 = none) :=
  by
  have hu : union_handle ⟨.tUnion [.tInt, .tStr], ∅, ∅⟩ =
      some ⟨[(false, ⟨.tInt, ∅, ∅ ∪ {"union", "optional"}⟩),
             (false, ⟨.tStr, ∅, ∅ ∪ {"union", "optional"}⟩)]⟩ := rfl
  have ho : optional_handle ⟨.tUnion [.tInt, .tNoneType], ∅, ∅⟩ =
      some ⟨[(false, ⟨.tInt, ∅, ∅ ∪ {"none", "optional"}⟩)]⟩ := rfl
  exact ⟨c9_union_optional_nesting_guard.1 _ (by decide),
    c9_union_optional_nesting_guard.2.1 _ (by decide),
    ⟨_, hu, c9_union_optional_nesting_guard.2.2.1 _ _ hu⟩,
    ⟨_, ho, c9_union_optional_nesting_guard.2.2.2 _ _ ho⟩⟩

/-! ### AnyGenerator.generate_generator
(generators/typing_generators.py lines 225-272) -/

/-- `GeneratorConfig` (generators/_base_generator.py lines 88-96). -/
structure GeneratorConfig where
  sub_generators_number : Int
  requires_only_generators : Bool
  immutable : Bool
deriving DecidableEq

/-- The registered generator kinds (the members of `GENERATORS`,
typing_generators.py lines 187-208 plus `AnyGenerator` added at line 281). -/
inductive GKind
  | boolG | intG | floatG | complexG | strG | bytesG | byteArrayG | memoryViewG
  | rangeG | noneG | iterableG | listG | tupleEllipsisG | frozenSetG | setG
  | optionalG | dictG | tupleG | unionG | literalG | anyG
deriving DecidableEq

/-- Each kind's `config` class attribute, copied from the sources
(final_concrete_generators.py, concrete_generators.py,
typing_generators.py). -/
def gen_config : GKind → GeneratorConfig
  | .boolG => ⟨0, true, true⟩
  | .intG => ⟨0, true, true⟩
  | .floatG => ⟨0, true, true⟩
  | .complexG => ⟨0, true, true⟩
  | .strG => ⟨0, true, true⟩
  | .bytesG => ⟨0, true, true⟩
  | .byteArrayG => ⟨0, true, false⟩
  | .memoryViewG => ⟨0, true, true⟩
  | .rangeG => ⟨0, true, true⟩
  | .noneG => ⟨0, true, true⟩
  | .iterableG => ⟨1, true, false⟩
  | .listG => ⟨1, true, false⟩
  | .tupleEllipsisG => ⟨1, true, true⟩
  | .frozenSetG => ⟨1, true, true⟩
  | .setG => ⟨1, true, false⟩
  | .optionalG => ⟨1, true, true⟩
  | .dictG => ⟨2, true, false⟩
  | .tupleG => ⟨-1, true, true⟩
  | .unionG => ⟨-1, true, true⟩
  | .literalG => ⟨-1, false, true⟩
  | .anyG => ⟨-1, true, true⟩

/-- The `GENERATORS` pool.  In the source it is a Python set, whose
iteration order is unspecified; the membership is what matters, since the
pick is `random.choice`, modelled by an oracle index. -/
def GENERATORS : List GKind :=
  [.boolG, .intG, .floatG, .complexG, .strG, .bytesG, .byteArrayG, .memoryViewG,
   .rangeG, .noneG, .iterableG, .listG, .tupleEllipsisG, .frozenSetG, .setG,
   .optionalG, .dictG, .tupleG, .unionG, .literalG, .anyG]

/-- A constructed generator instance, with the constructor arguments
relevant to the claims.  `memoryViewT` keeps its `bytearray_chance`
(default `0.5` when constructed with no arguments, as `generate_generator`
does for arity-0 kinds). -/
inductive GenTree
  | boolT | intT | floatT | complexT | strT | bytesT | byteArrayT
  | memoryViewT (bytearray_chance : ℚ)
  | rangeT | noneT
  | iterableT (sub : GenTree)
  | listT (sub : GenTree)
  | tupleEllipsisT (sub : GenTree)
  | frozenSetT (sub : GenTree)
  | setT (sub : GenTree)
  | optionalT (sub : GenTree)
  | dictT (keysT valuesT : GenTree)
  | tupleT (subs : List GenTree)
  | unionT (subs : List GenTree)

/-- `chosen_generator(...)` with the resolved sub generators: default
construction for arity-0 kinds (in particular `MemoryViewGenerator()` keeps
its default `bytearray_chance = 0.5`), one/two positional sub generators for
fixed arities, a packed list for arity −1. -/
def mk_generator : GKind → List GenTree → Option GenTree
  | .boolG, [] => some .boolT
  | .intG, [] => some .intT
  | .floatG, [] => some .floatT
  | .complexG, [] => some .complexT
  | .strG, [] => some .strT
  | .bytesG, [] => some .bytesT
  | .byteArrayG, [] => some .byteArrayT
  | .memoryViewG, [] => some (.memoryViewT (mkRat 1 2))
  | .rangeG, [] => some .rangeT
  | .noneG, [] => some .noneT
  | .iterableG, [s] => some (.iterableT s)
  | .listG, [s] => some (.listT s)
  | .tupleEllipsisG, [s] => some (.tupleEllipsisT s)
  | .frozenSetG, [s] => some (.frozenSetT s)
  | .setG, [s] => some (.setT s)
  | .optionalG, [s] => some (.optionalT s)
  | .dictG, [k, v] => some (.dictT k v)
  | .tupleG, subs => some (.tupleT subs)
  | .unionG, subs => some (.unionT subs)
  | _, _ => none

/-- The filtering of candidate kinds (typing_generators.py lines 239-249):
only kinds requiring only generators and not the Any kind; only immutable
kinds when hashability is required; only arity-0 kinds when the remaining
depth is at most 1. -/
def eligible_options (given_options : Option (List GKind)) (max_depth : Int)
    (require_hashable : Bool) : List GKind :=
  let options := (given_options.getD GENERATORS).filter fun g =>
    (gen_config g).requires_only_generators && !(g == GKind.anyG)
  let options := if require_hashable then
    options.filter fun g => (gen_config g).immutable else options
  if max_depth ≤ 1 then
    options.filter fun g => (gen_config g).sub_generators_number == 0
  else options

/-- `AnyGenerator.generate_generator` (typing_generators.py lines 225-272),
driven by an oracle of choice draws.  `random.choice` is the oracle index
modulo the pool size and `random.randint(1, 10)` is `1 + draw % 10`.  The
fuel only bounds the recursion: the source bounds it by `max_depth` (every
recursive call decreases the depth and at depth ≤ 1 only arity-0 kinds stay
eligible), so the `max_depth.toNat + 1` fuel of `generate_generator` is
never exhausted.  `none` models `ValueError('No matching generator
found.')`. -/
def generate_generator_aux : Nat → Option (List GKind) → Int → Bool → List Nat →
    Option (GenTree × List Nat)
  | 0, _, _, _, _ => none
  | fuel + 1, given_options, max_depth, require_hashable, o =>
    let options := eligible_options given_options max_depth require_hashable
    if options.isEmpty then none
    else
      let (c, o1) := take_choice o
      let chosen := options.getD (c % options.length) .noneG
      if chosen = .setG ∨ chosen = .frozenSetG then
        match generate_generator_aux fuel given_options (max_depth - 1) true o1 with
        | none => none
        | some (sub, o2) => (mk_generator chosen [sub]).map fun t => (t, o2)
      else if chosen = .dictG then
        match generate_generator_aux fuel given_options (max_depth - 1) true o1 with
        | none => none
        | some (kt, o2) =>
          match generate_generator_aux fuel given_options (max_depth - 1)
              require_hashable o2 with
          | none => none
          | some (vt, o3) => (mk_generator chosen [kt, vt]).map fun t => (t, o3)
      else if (gen_config chosen).sub_generators_number = -1 then
        let (c2, o2) := take_choice o1
        let amount := 1 + c2 % 10
        match (List.range amount).foldl (fun acc _ =>
            match acc with
            | none => none
            | some (ts, oacc) =>
              match generate_generator_aux fuel given_options (max_depth - 1)
                  require_hashable oacc with
              | none => none
              | some (t, onext) => some (ts ++ [t], onext)) (some ([], o2)) with
        | none => none
        | some (subs, o3) => (mk_generator chosen subs).map fun t => (t, o3)
      else
        match (List.range (gen_config chosen).sub_generators_number.toNat).foldl
            (fun acc _ =>
            match acc with
            | none => none
            | some (ts, oacc) =>
              match generate_generator_aux fuel given_options (max_depth - 1)
                  require_hashable oacc with
              | none => none
              | some (t, onext) => some (ts ++ [t], onext)) (some ([], o1)) with
        | none => none
        | some (subs, o2) => (mk_generator chosen subs).map fun t => (t, o2)

/-- `AnyGenerator.generate_generator` with its source defaults
(`max_depth = 5`, `require_hashable = False` at the call sites that do not
require hashability). -/
def generate_generator (given_options : Option (List GKind)) (max_depth : Int)
    (require_hashable : Bool) (o : List Nat) : Option (GenTree × List Nat) :=
  generate_generator_aux (max_depth.toNat + 1) given_options max_depth
    require_hashable o

/-- Python `string.printable`: digits, lowercase, uppercase, punctuation and
whitespace. -/
def string_printable : List Char :=
  ("0123456789" ++ "abcdefghijklmnopqrstuvwxyz" ++
    "ABCDEFGHIJKLMNOPQRSTUVWXYZ").toList ++
  "!\"#$%&".toList ++ [Char.ofNat 39] ++ "()*+,-./:;<=>?@[\\]^_".toList ++
  [Char.ofNat 96] ++ [Char.ofNat 123] ++ ['|'] ++ [Char.ofNat 125] ++ ['~'] ++
  [' ', Char.ofNat 9, Char.ofNat 10, Char.ofNat 13, Char.ofNat 11, Char.ofNat 12]

/-- `random.randrange(a, b)` (half-open), driven by an oracle draw; faithful
for `a < b`. -/
def py_randrange (a b r : Nat) : Nat := a + r % (b - a)

/-- `StringGenerator.__call__` (final_concrete_generators.py lines 159-161):
`random.randrange(min_length, max_length + 1)` characters chosen from the
selection (each `random.choice` is an oracle index modulo the selection
size). -/
def string_generator_call (min_length max_length : Nat) (selection : List Char)
    (o : List Nat) : String × List Nat :=
  let (r, o1) := take_choice o
  let n := py_randrange min_length (max_length + 1) r
  let picked := (List.range n).foldl (fun (acc : List Char × List Nat) _ =>
    let (c, orest) := take_choice acc.2
    (acc.1 ++ [selection.getD (c % selection.length) 'a'], orest)) ([], o1)
  (String.mk picked.1, picked.2)

/-- `BytesGenerator.__call__` (lines 190-191):
`super().__call__().encode(self._encoding)`; the bytes content is modelled
by the generated string itself. -/
def bytes_generator_call (min_length max_length : Nat) (selection : List Char)
    (o : List Nat) : String × List Nat :=
  string_generator_call min_length max_length selection o

/-- A scalar Python value as far as hashability is concerned. -/
inductive ScalarValue
  | vNone
  | vBool (b : Bool)
  | vStr (s : String)
  | vBytes (s : String)
  | vByteArray (s : String)
  | vMemoryView (bytearray_backed : Bool) (content : String)
deriving DecidableEq

/-- Python `hash(v)` availability: `bytearray` is unhashable, and a
`memoryview` is hashable exactly when its underlying buffer is (`bytes`
yes, `bytearray` no); every other scalar here is hashable. -/
def py_hashable : ScalarValue → Bool
  | .vByteArray _ => false
  | .vMemoryView backed _ => !backed
  | _ => true

/-- `MemoryViewGenerator.__call__` (final_concrete_generators.py lines
260-262): build the bytes content, then wrap it in a `bytearray` with
probability `bytearray_chance` (`rand_real` models the `random.random()`
draw, uniform in `[0, 1)`). -/
def memoryview_generator_call (bytearray_chance : ℚ) (min_length max_length : Nat)
    (selection : List Char) (rand_real : ℚ) (o : List Nat) :
    ScalarValue × List Nat :=
  let (created, o1) := bytes_generator_call min_length max_length selection o
  (if rand_real < bytearray_chance then ScalarValue.vMemoryView true created
   else ScalarValue.vMemoryView false created, o1)

/-- C5 fails on the code: `MemoryViewGenerator` is marked `immutable`, so it
stays eligible under `require_hashable = true`, and `generate_generator`
instantiates it with no arguments — keeping its default
`bytearray_chance = 0.5` (unlike `handle_specification`, which zeroes it
when hashability is required).  A draw below that chance then produces a
`memoryview` over a `bytearray`, which is not hashable.  Concretely: under
`require_hashable = true` the oracle `[6]` resolves the tree to exactly
`MemoryViewGenerator(bytearray_chance = 1/2)`, and its call with a zero
`random.random()` draw produces an unhashable value. -/
theorem c5_memoryview_breaks_hashability :
    (gen_config .memoryViewG).immutable = true ∧
    GKind.memoryViewG ∈ eligible_options none 5 true ∧
    generate_generator none 5 true [6] = some (.memoryViewT (mkRat 1 2), []) ∧
    (mkRat 1 2 : ℚ) ≠ 0 ∧
    py_hashable (memoryview_generator_call (mkRat 1 2) 0 (2 ^ 5) string_printable 0
      [0]).1 = false := by
  refine ⟨rfl, by decide, rfl, by decide, by decide⟩

end GuessTesting
